import Mathlib

/-!
Shallow embedding of the namespace-mapping / substitution core of the
`SConsArguments` package (src/SConsArguments/__init__.py).

Python dictionaries are embedded as association lists `List (String × α)`;
`dict(pairs)` construction and `d[k] = v` assignment give the *last* binding
priority, which `dlookup` reproduces.  Python values are embedded as `Value`
(strings, the `None` object, the `_undef` sentinel, and opaque non-string
objects).  Exceptions are embedded as explicit error results.  The namespace
constants ENV = 0, VAR = 1, OPT = 2, ALL = 3 mirror the module constants.
-/

namespace SCA

/-- Namespace selector constant `ENV = 0` from the source module. -/
def ENV : Nat := 0

/-- Namespace selector constant `VAR = 1` from the source module. -/
def VAR : Nat := 1

/-- Namespace selector constant `OPT = 2` from the source module. -/
def OPT : Nat := 2

/-- `ALL = 3`, the number of namespaces. -/
def ALL : Nat := 3

/-- A Python value as this library observes it: a string (subject to
placeholder rewriting), the `None` object, the `_undef`/UNDEFINED sentinel,
or any other object (opaque, indexed by a natural number). -/
inductive Value where
  | str : String → Value
  | vnone : Value
  | undef : Value
  | other : Nat → Value
deriving DecidableEq, Repr

/-- Last-binding-wins lookup in an association list, the behaviour of a
Python dict built by repeated assignment / `dict(pairs)`. -/
def dlookup {α : Type} : List (String × α) → String → Option α
  | [], _ => none
  | p :: xs, k =>
    match dlookup xs k with
    | some v => some v
    | none => if p.1 = k then some p.2 else none

/-- `d[k] = v` on a Python dict: replace the binding if the key is present,
append it otherwise. -/
def dictSet {α : Type} (xs : List (String × α)) (k : String) (v : α) :
    List (String × α) :=
  if xs.any (fun p => p.1 = k) then
    xs.map (fun p => if p.1 = k then (k, v) else p)
  else xs ++ [(k, v)]

/-- `del d[k]` on a Python dict (no error reporting — callers check first). -/
def dictDel {α : Type} (xs : List (String × α)) (k : String) :
    List (String × α) :=
  xs.filter (fun p => p.1 ≠ k)

/-- `k in d` on a Python dict. -/
def dictHasKey {α : Type} (xs : List (String × α)) (k : String) : Bool :=
  (dlookup xs k).isSome

/-- The `${`-style placeholder delimiters as characters. -/
def obrace : Char := '\x7b'

/-- Closing brace character. -/
def cbrace : Char := '\x7d'

/-- `"${" + s + "}"`: wrap a name in a placeholder, as the table builders do. -/
def placeholder (s : String) : String :=
  String.mk ('$' :: obrace :: s.data ++ [cbrace])

/-- Identifier-start class of Python 2 `string.Template` (`[_a-z]` with
IGNORECASE): an ASCII letter or underscore. -/
def isIdentStart (c : Char) : Bool :=
  c = '_' || ('a' ≤ c && c ≤ 'z') || ('A' ≤ c && c ≤ 'Z')

/-- Identifier-continuation class of `string.Template` (`[_a-z0-9]` with
IGNORECASE). -/
def isIdentCont (c : Char) : Bool :=
  isIdentStart c || ('0' ≤ c && c ≤ '9')

/-- Longest identifier-continuation run at the head of a character list,
and the rest. -/
def takeIdent : List Char → List Char × List Char
  | [] => ([], [])
  | c :: cs =>
    if isIdentCont c then
      let r := takeIdent cs
      (c :: r.1, r.2)
    else ([], c :: cs)

theorem takeIdent_snd_length : ∀ l : List Char, (takeIdent l).2.length ≤ l.length := by
  intro l
  induction l with
  | nil => simp [takeIdent]
  | cons c cs ih =>
    simp only [takeIdent]
    by_cases h : isIdentCont c = true
    · simp [h]; omega
    · simp [h]

/-- Replacement for a matched braced occurrence `${ident}`: `table[ident]`
when the name is a key, the original text verbatim otherwise
(`safe_substitute` semantics). -/
def subBraced (table : List (String × String)) (ident : List Char) : List Char :=
  match dlookup table (String.mk ident) with
  | some v => v.data
  | none => '$' :: obrace :: ident ++ [cbrace]

/-- Replacement for a matched plain occurrence `$ident`. -/
def subPlain (table : List (String × String)) (ident : List Char) : List Char :=
  match dlookup table (String.mk ident) with
  | some v => v.data
  | none => '$' :: ident

/-- What one `$` does in a `safe_substitute` pass: given the characters after
the `$`, return the text emitted for the matched occurrence and the characters
scanning continues from.  `$$` emits `$`; `${ident}` and `$ident` are replaced
through the table (or kept verbatim when the name is no key); a `$` that
starts no valid occurrence emits `$` and scanning continues right after it. -/
def parseDollar (table : List (String × String)) (rest : List Char) :
    List Char × List Char :=
  match rest with
  | [] => (['$'], [])
  | c1 :: rest1 =>
    if c1 = '$' then (['$'], rest1)
    else if c1 = obrace then
      match rest1 with
      | c2 :: rest2 =>
        if isIdentStart c2 then
          let r := takeIdent (c2 :: rest2)
          match r.2 with
          | c3 :: rest3 =>
            if c3 = cbrace then (subBraced table r.1, rest3) else (['$'], rest)
          | [] => (['$'], rest)
        else (['$'], rest)
      | [] => (['$'], rest)
    else if isIdentStart c1 then
      (subPlain table (takeIdent (c1 :: rest1)).1, (takeIdent (c1 :: rest1)).2)
    else (['$'], rest)

theorem parseDollar_snd_length (table : List (String × String)) :
    ∀ rest : List Char, (parseDollar table rest).2.length ≤ rest.length := by
  intro rest
  match rest with
  | [] => simp [parseDollar]
  | c1 :: rest1 =>
    simp only [parseDollar]
    split_ifs with h1 h2 h3
    · simp
    · match rest1 with
      | [] => simp
      | c2 :: rest2 =>
        simp only
        split_ifs with h4
        · have hlen := takeIdent_snd_length (c2 :: rest2)
          cases hr : (takeIdent (c2 :: rest2)).2 with
          | nil => simp
          | cons c3 rest3 =>
            rw [hr] at hlen
            simp only
            split_ifs with h5
            · simp only [List.length_cons] at hlen ⊢
              omega
            · simp
        · simp
    · have hlen := takeIdent_snd_length (c1 :: rest1)
      simp only [List.length_cons] at hlen ⊢
      omega
    · simp

/-- The `safe_substitute` scanning loop with explicit fuel (one unit per
input character suffices, since every step consumes at least one
character); structural recursion keeps the definition kernel-reducible. -/
def scanSubstF (table : List (String × String)) : Nat → List Char → List Char
  | 0, l => l
  | _ + 1, [] => []
  | fuel + 1, c0 :: rest =>
    if c0 = '$' then
      (parseDollar table rest).1 ++ scanSubstF table fuel (parseDollar table rest).2
    else c0 :: scanSubstF table fuel rest

theorem scanSubstF_fuel_irrel (table : List (String × String)) :
    ∀ (f1 : Nat) (l : List Char) (f2 : Nat), l.length ≤ f1 → l.length ≤ f2 →
      scanSubstF table f1 l = scanSubstF table f2 l := by
  intro f1
  induction f1 with
  | zero =>
    intro l f2 h1 _
    have : l = [] := List.eq_nil_of_length_eq_zero (Nat.le_zero.mp h1)
    subst this
    cases f2 <;> rfl
  | succ g ih =>
    intro l f2 h1 h2
    cases l with
    | nil => cases f2 <;> rfl
    | cons c0 rest =>
      cases f2 with
      | zero => simp at h2
      | succ h =>
        simp only [List.length_cons, Nat.succ_le_succ_iff] at h1 h2
        simp only [scanSubstF]
        by_cases hc : c0 = '$'
        · simp only [hc, if_pos rfl]
          have hlen := parseDollar_snd_length table rest
          rw [ih (parseDollar table rest).2 h (Nat.le_trans hlen h1) (Nat.le_trans hlen h2)]
          simp
        · simp only [hc, if_false]
          rw [ih rest h h1 h2]

/-- One left-to-right pass of Python 2 `string.Template(s).safe_substitute`
with mapping `table`, as `_resubst` invokes it.  The replacement text is
never re-scanned: the pass is single and non-recursive. -/
def scanSubst (table : List (String × String)) (l : List Char) : List Char :=
  scanSubstF table l.length l

/-- Whether a value is a string (`SCons.Util.is_String`). -/
def Value.isString : Value → Bool
  | Value.str _ => true
  | _ => false

/-- `_resubst(value, resubst_dict)`: rename placeholders in a string value;
a non-string value is returned unaltered. -/
def resubstValue (value : Value) (resubst_dict : List (String × String)) : Value :=
  match value with
  | Value.str s => Value.str (String.mk (scanSubst resubst_dict s.data))
  | v => v

/-- `_build_resubst_dict(rename_dict)`: drop identity entries, wrap each
target name into a `${...}` placeholder, keep the key. -/
def build_resubst_dict (rename_dict : List (String × String)) :
    List (String × String) :=
  (rename_dict.filter (fun p => p.1 ≠ p.2)).map (fun p => (p.1, placeholder p.2))

/-- `_build_iresubst_dict(rename_dict)`: drop identity entries, wrap each
key into a `${...}` placeholder, keyed by the target name. -/
def build_iresubst_dict (rename_dict : List (String × String)) :
    List (String × String) :=
  (rename_dict.filter (fun p => p.1 ≠ p.2)).map (fun p => (p.2, placeholder p.1))

/-- `_compose_mappings(dict1, dict2)`: `{k ↦ dict2[dict1[k]]}`; `none` embeds
the KeyError raised when some value of `dict1` is no key of `dict2`. -/
def compose_mappings (dict1 dict2 : List (String × String)) :
    Option (List (String × String)) :=
  match dict1 with
  | [] => some []
  | p :: rest =>
    match dlookup dict2 p.2, compose_mappings rest dict2 with
    | some v2, some r => some ((p.1, v2) :: r)
    | _, _ => none

/-- `_invert_dict(d)`: swap keys and values. -/
def invert_dict (d : List (String × String)) : List (String × String) :=
  d.map (fun p => (p.2, p.1))

/-- An external string-keyed store (an SCons environment's construction
vars, or a plain dictionary), embedded as a Python dict. -/
def Store : Type := List (String × Value)

instance : DecidableEq Store := by
  unfold Store
  infer_instance

instance {ε α : Type} [DecidableEq ε] [DecidableEq α] : DecidableEq (Except ε α) :=
  fun x y =>
    match x, y with
    | Except.ok a, Except.ok b =>
      if h : a = b then Decidable.isTrue (by rw [h])
      else Decidable.isFalse (by intro hc; injection hc; contradiction)
    | Except.error e, Except.error f =>
      if h : e = f then Decidable.isTrue (by rw [h])
      else Decidable.isFalse (by intro hc; injection hc; contradiction)
    | Except.ok _, Except.error _ => Decidable.isFalse (by intro hc; cases hc)
    | Except.error _, Except.ok _ => Decidable.isFalse (by intro hc; cases hc)

/-- Lookup in a store. -/
def storeGet (st : Store) (k : String) : Option Value := dlookup st k

/-- Assignment `st[k] = v` in a store. -/
def storeSet (st : Store) (k : String) (v : Value) : Store := dictSet st k v

/-- `env.SetDefault(k = v)` of an SCons environment: create the variable
only when it does not exist yet; an existing value is never overwritten. -/
def setDefault (st : Store) (k : String) (v : Value) : Store :=
  if (dlookup st k).isSome then st else dictSet st k v

/-- The errors this embedding distinguishes.  The source raises plain
`RuntimeError`/`KeyError`/... objects; the spec names the two RuntimeError
flavours FrozenError and DuplicateKeyError. -/
inductive Err where
  | frozenError : Err
  | duplicateKeyError : Err
  | notCommittedError : Err
  | keyError : Err
  | indexError : Err
  | validationError : Err
deriving DecidableEq, Repr

/-- `_ArgumentsProxy.__getitem__strict`: translate the key through `rename`,
read the target, rewrite placeholders through `iresubst`; `none` embeds the
KeyError raised when the key is missing from `rename` or from the target. -/
def proxyGetStrict (rename iresubst : List (String × String)) (tgt : Store)
    (key : String) : Option Value :=
  (dlookup rename key).bind (fun tk =>
    (dlookup tgt tk).map (fun v => resubstValue v iresubst))

/-- `_ArgumentsProxy.__setitem__strict`: rewrite the value through `resubst`,
translate the key through `rename`, write into the target; `none` embeds the
KeyError when the key is missing from `rename`. -/
def proxySetStrict (rename resubst : List (String × String)) (tgt : Store)
    (key : String) (value : Value) : Option Store :=
  (dlookup rename key).map (fun tk => dictSet tgt tk (resubstValue value resubst))

/-- `_ArgumentsProxy.__setitem__nonstrict`: as the strict variant, but a key
missing from `rename` is used against the target unchanged. -/
def proxySetNonstrict (rename resubst : List (String × String)) (tgt : Store)
    (key : String) (value : Value) : Store :=
  dictSet tgt ((dlookup rename key).getD key) (resubstValue value resubst)

/-- `_ArgumentsProxy._get_nonstrict` with an explicit default: translate the
key (falling back to the untranslated key), `tgt.get(tgt_key, default)`,
rewrite the result through `iresubst`. -/
def proxyGetNonstrictD (rename iresubst : List (String × String)) (tgt : Store)
    (key : String) (default : Value) : Value :=
  resubstValue ((dlookup tgt ((dlookup rename key).getD key)).getD default) iresubst

/-- The canonical ENV declaration record `{'key': ..., 'default': ...}`
produced by `_ArgumentDecl.set_env_decl` (a bare string sets the default
to `_undef`). -/
structure EnvDecl where
  key : String
  default : Value

/-- The canonical VAR declaration dictionary produced by
`_ArgumentDecl.set_var_decl`: the `key` entry plus the optional entries
consumed later by `Variables.Add` and the reimplemented `Update`.  A `none`
field embeds the absence of the dictionary entry. -/
structure VarDecl where
  key : String
  help : Option Value
  default : Option Value
  validator : Option (String → Value → Store → Bool)
  converter : Option (Value → Value)

/-- The canonical OPT declaration `(names, kw)` produced by
`_ArgumentDecl.set_opt_decl`; `kw` must hold `dest`, and `default` embeds
`kw.get('default', ...)`.  The remaining keyword attributes are opaque. -/
structure OptDecl where
  names : List String
  dest : String
  default : Option Value
  kwOther : List (String × Value)

/-- `_ArgumentDecl`: the per-Argument 3-slot declaration table
(`__decl_tab`), one optional slot per namespace. -/
structure ArgumentDecl where
  envDecl : Option EnvDecl
  varDecl : Option VarDecl
  optDecl : Option OptDecl

/-- `_ArgumentDecl.has_decl(ns)`. -/
def ArgumentDecl.hasDecl (d : ArgumentDecl) (ns : Nat) : Bool :=
  if ns = ENV then d.envDecl.isSome
  else if ns = VAR then d.varDecl.isSome
  else if ns = OPT then d.optDecl.isSome
  else false

/-- `_ArgumentDecl.get_key(ns)`: `decl['key']` for ENV and VAR,
`decl[1]['dest']` for OPT; `none` embeds the IndexError raised when the
declaration is absent. -/
def ArgumentDecl.getKey? (d : ArgumentDecl) (ns : Nat) : Option String :=
  if ns = ENV then d.envDecl.map EnvDecl.key
  else if ns = VAR then d.varDecl.map VarDecl.key
  else if ns = OPT then d.optDecl.map OptDecl.dest
  else none

/-- `_ArgumentDecl.set_key(ns, key)` (leaves the record unchanged when the
declaration is absent; every caller in the source guards with the
committed/`get_decl` checks first). -/
def ArgumentDecl.setKey (d : ArgumentDecl) (ns : Nat) (k : String) : ArgumentDecl :=
  if ns = ENV then { d with envDecl := d.envDecl.map (fun e => { e with key := k }) }
  else if ns = VAR then { d with varDecl := d.varDecl.map (fun v => { v with key := k }) }
  else if ns = OPT then { d with optDecl := d.optDecl.map (fun o => { o with dest := k }) }
  else d

/-- `_ArgumentDecl.get_default(ns)`: the stored default, `_undef` when the
`default` entry is absent; `none` embeds the IndexError raised when the
whole declaration is absent. -/
def ArgumentDecl.getDefault? (d : ArgumentDecl) (ns : Nat) : Option Value :=
  if ns = ENV then d.envDecl.map EnvDecl.default
  else if ns = VAR then d.varDecl.map (fun v => v.default.getD Value.undef)
  else if ns = OPT then d.optDecl.map (fun o => o.default.getD Value.undef)
  else none

/-- `_ArgumentDecl.set_default(ns, default)` (unchanged when the declaration
is absent, as for `setKey`). -/
def ArgumentDecl.setDefaultValue (d : ArgumentDecl) (ns : Nat) (v : Value) : ArgumentDecl :=
  if ns = ENV then { d with envDecl := d.envDecl.map (fun e => { e with default := v }) }
  else if ns = VAR then { d with varDecl := d.varDecl.map (fun w => { w with default := some v }) }
  else if ns = OPT then { d with optDecl := d.optDecl.map (fun o => { o with default := some v }) }
  else d

/-- `_ArgumentDecls`: the declaration dictionary (`items`), the four
supplementary table families (each a 3-element list indexed by namespace),
and the committed flag. -/
structure ArgumentDecls where
  items : List (String × ArgumentDecl)
  rename : List (List (String × String))
  irename : List (List (String × String))
  resubst : List (List (String × String))
  iresubst : List (List (String × String))
  committed : Bool

/-- Access one namespace's table in a 3-element table family. -/
def nsGet (tables : List (List (String × String))) (ns : Nat) :
    List (String × String) :=
  tables.getD ns []

/-- `_ArgumentDecls.__append_key_to_supp_dicts`: raise DuplicateKeyError
when `ns_key` is already a key of `irename[ns]`, otherwise add the pair to
`rename[ns]` and `irename[ns]`. -/
def appendKeyToSuppDicts (d : ArgumentDecls) (ns : Nat) (key ns_key : String) :
    ArgumentDecls × Option Err :=
  if dictHasKey (nsGet d.irename ns) ns_key then (d, some Err.duplicateKeyError)
  else
    ({ d with
        rename := d.rename.set ns (dictSet (nsGet d.rename ns) key ns_key),
        irename := d.irename.set ns (dictSet (nsGet d.irename ns) ns_key key) },
      none)

/-- `_ArgumentDecls.__append_decl_to_supp_dicts`: for each namespace in
order ENV, VAR, OPT, register the declared key; the first clash raises and
the namespaces already processed keep their new entries. -/
def appendDeclToSuppDicts (d : ArgumentDecls) (key : String) (decl : ArgumentDecl) :
    ArgumentDecls × Option Err :=
  [ENV, VAR, OPT].foldl
    (fun acc ns =>
      match acc.2 with
      | some _ => acc
      | none =>
        if decl.hasDecl ns then
          match decl.getKey? ns with
          | some nsk => appendKeyToSuppDicts acc.1 ns key nsk
          | none => acc
        else acc)
    (d, none)

/-- `_ArgumentDecls.__del_from_supp_dicts`. -/
def delFromSuppDicts (d : ArgumentDecls) (key : String) : ArgumentDecls :=
  [ENV, VAR, OPT].foldl
    (fun dd ns =>
      match dlookup (nsGet dd.rename ns) key with
      | some nsk =>
        { dd with
            rename := dd.rename.set ns (dictDel (nsGet dd.rename ns) key),
            irename := dd.irename.set ns (dictDel (nsGet dd.irename ns) nsk) }
      | none => dd)
    d

/-- `_ArgumentDecls.__reset_supp_dicts`. -/
def resetSuppDicts (d : ArgumentDecls) : ArgumentDecls :=
  { d with rename := [[], [], []], irename := [[], [], []],
           resubst := [[], [], []], iresubst := [[], [], []] }

/-- `_ArgumentDecls.__update_supp_dicts`: reset, then re-append every
declaration of the main dictionary (stopping at the first clash). -/
def updateSuppDicts (d : ArgumentDecls) : ArgumentDecls × Option Err :=
  d.items.foldl
    (fun acc p =>
      match acc.2 with
      | some _ => acc
      | none => appendDeclToSuppDicts acc.1 p.1 p.2)
    (resetSuppDicts d, none)

/-- `_ArgumentDecls.__setitem__`: committed check, supplementary-table
registration (which may raise DuplicateKeyError, keeping the partial table
updates), then the dictionary assignment itself. -/
def decls_setitem (d : ArgumentDecls) (key : String) (value : ArgumentDecl) :
    ArgumentDecls × Option Err :=
  if d.committed then (d, some Err.frozenError)
  else
    match appendDeclToSuppDicts d key value with
    | (d1, some e) => (d1, some e)
    | (d1, none) => ({ d1 with items := dictSet d1.items key value }, none)

/-- `_ArgumentDecls.__delitem__`: committed check, removal from the
supplementary tables, then the dictionary deletion (KeyError when the key
is absent). -/
def decls_delitem (d : ArgumentDecls) (key : String) : ArgumentDecls × Option Err :=
  if d.committed then (d, some Err.frozenError)
  else
    let d1 := delFromSuppDicts d key
    if dictHasKey d1.items key then
      ({ d1 with items := dictDel d1.items key }, none)
    else (d1, some Err.keyError)

/-- `_ArgumentDecls.update`: committed check, dictionary update, full
supplementary-table rebuild. -/
def decls_update (d : ArgumentDecls) (entries : List (String × ArgumentDecl)) :
    ArgumentDecls × Option Err :=
  if d.committed then (d, some Err.frozenError)
  else
    updateSuppDicts
      { d with items := entries.foldl (fun it p => dictSet it p.1 p.2) d.items }

/-- `_ArgumentDecls.clear`: committed check, dictionary clear, table rebuild. -/
def decls_clear (d : ArgumentDecls) : ArgumentDecls × Option Err :=
  if d.committed then (d, some Err.frozenError)
  else updateSuppDicts { d with items := [] }

/-- `_ArgumentDecls.pop(key)` (no fallback argument): committed check,
removal from the supplementary tables, then the dictionary pop (KeyError
when the key is absent). -/
def decls_pop (d : ArgumentDecls) (key : String) :
    (ArgumentDecls × Option ArgumentDecl) × Option Err :=
  if d.committed then ((d, none), some Err.frozenError)
  else
    let d1 := delFromSuppDicts d key
    match dlookup d1.items key with
    | some v => (({ d1 with items := dictDel d1.items key }, some v), none)
    | none => ((d1, none), some Err.keyError)

/-- `_ArgumentDecls.popitem`: committed check, dictionary popitem (KeyError
on an empty dictionary; the CPython choice of which item is popped is
unspecified — this embedding pops the first), then supplementary removal. -/
def decls_popitem (d : ArgumentDecls) :
    (ArgumentDecls × Option (String × ArgumentDecl)) × Option Err :=
  if d.committed then ((d, none), some Err.frozenError)
  else
    match d.items with
    | [] => ((d, none), some Err.keyError)
    | p :: rest =>
      ((delFromSuppDicts { d with items := rest } p.1, some p), none)

/-- `_ArgumentDecls.setdefault(key, value)` with a value supplied: committed
check, then plain `dict.setdefault` (the supplementary tables are *not*
updated by this path in the source). -/
def decls_setdefault (d : ArgumentDecls) (key : String) (value : ArgumentDecl) :
    (ArgumentDecls × Option ArgumentDecl) × Option Err :=
  if d.committed then ((d, none), some Err.frozenError)
  else
    match dlookup d.items key with
    | some old => ((d, some old), none)
    | none => (({ d with items := dictSet d.items key value }, some value), none)

/-- `_ArgumentDecls.__replace_key_in_supp_dicts(ns, key, ns_key)`. -/
def replaceKeyInSuppDicts (d : ArgumentDecls) (ns : Nat) (key ns_key : String) :
    ArgumentDecls × Option Err :=
  let old? := dlookup (nsGet d.rename ns) key
  match old? with
  | some old =>
    if ns_key = old then (d, none)
    else
      match appendKeyToSuppDicts d ns key ns_key with
      | (d1, some e) => (d1, some e)
      | (d1, none) =>
        ({ d1 with irename := d1.irename.set ns (dictDel (nsGet d1.irename ns) old) },
          none)
  | none =>
    match appendKeyToSuppDicts d ns key ns_key with
    | (d1, some e) => (d1, some e)
    | (d1, none) => (d1, none)

/-- `_ArgumentDecls.set_key(ns, key, ns_key)`: committed check, rewrite the
key inside the declaration (KeyError when the Argument is unknown,
IndexError when it has no `ns` declaration), then fix the tables. -/
def decls_set_key (d : ArgumentDecls) (ns : Nat) (key ns_key : String) :
    ArgumentDecls × Option Err :=
  if d.committed then (d, some Err.frozenError)
  else
    match dlookup d.items key with
    | none => (d, some Err.keyError)
    | some decl =>
      if decl.hasDecl ns then
        let d1 := { d with items := dictSet d.items key (decl.setKey ns ns_key) }
        replaceKeyInSuppDicts d1 ns key ns_key
      else (d, some Err.indexError)

/-- `_ArgumentDecls.get_rename_dict(ns)` (the `.copy()` is the identity in
this value-level embedding; the reference-level copy behaviour is treated
separately with an explicit heap model). -/
def get_rename_dict (d : ArgumentDecls) (ns : Nat) : List (String × String) :=
  nsGet d.rename ns

/-- `_ArgumentDecls.get_irename_dict(ns)`. -/
def get_irename_dict (d : ArgumentDecls) (ns : Nat) : List (String × String) :=
  nsGet d.irename ns

/-- `_ArgumentDecls.get_resubst_dict(ns)`: NotCommittedError before commit. -/
def get_resubst_dict (d : ArgumentDecls) (ns : Nat) :
    Except Err (List (String × String)) :=
  if d.committed then Except.ok (nsGet d.resubst ns)
  else Except.error Err.notCommittedError

/-- `_ArgumentDecls.get_iresubst_dict(ns)`: NotCommittedError before commit. -/
def get_iresubst_dict (d : ArgumentDecls) (ns : Nat) :
    Except Err (List (String × String)) :=
  if d.committed then Except.ok (nsGet d.iresubst ns)
  else Except.error Err.notCommittedError

/-- One record of the external SCons `Variables` object, as the
reimplemented `_VariablesWrapper.Update` consumes it (key, aliases, default
— `Value.vnone` embeds Python `None` —, optional validator and converter).
Converters are embedded as total value transformers and a validator as a
predicate (its `False` embeds the exception the Python validator raises);
the two-argument converter fallback is not distinguished. -/
structure VarOption where
  key : String
  aliases : List String
  default : Value
  validator : Option (String → Value → Store → Bool)
  converter : Option (Value → Value)

/-- The external SCons `Variables` object: declared options, the net effect
of the options-file `exec` (a sequence of key/value assignments; the file
execution itself is external I/O), and the ambient argument dictionary. -/
structure Variables where
  options : List VarOption
  fileValues : List (String × Value)
  args : List (String × Value)

/-- `Variables.Add` as `_ArgumentDecl.add_to_var` invokes it with the
canonical VAR declaration dictionary. -/
def variablesAdd (vars : Variables) (vd : VarDecl) : Variables :=
  { vars with options :=
      vars.options ++ [⟨vd.key, [], vd.default.getD Value.vnone, vd.validator, vd.converter⟩] }

/-- `_VariablesWrapper.Update(env, args)` with `env` a namespace proxy
described by `rename`/`resubst`/`iresubst`: collect defaults (skipping
`None`-defaults), then the file values, then the command-line arguments
(matched against aliases and key); write every collected non-`_undef` value
through the proxy; run converters on the collected keys; run validators
(a failing validator embeds as `validationError`). -/
def variablesUpdate (vars : Variables)
    (rename resubst iresubst : List (String × String))
    (st0 : Store) (args? : Option (List (String × Value))) : Except Err Store :=
  let values1 := vars.options.foldl
    (fun vs o => if o.default ≠ Value.vnone then dictSet vs o.key o.default else vs)
    ([] : Store)
  let values2 := vars.fileValues.foldl (fun vs p => dictSet vs p.1 p.2) values1
  let argl := args?.getD vars.args
  let values3 := argl.foldl
    (fun vs pr => vars.options.foldl
      (fun vs2 o => if pr.1 ∈ o.aliases ++ [o.key] then dictSet vs2 o.key pr.2 else vs2)
      vs)
    values2
  let st1 := vars.options.foldl
    (fun s o =>
      match dlookup values3 o.key with
      | some v => if v ≠ Value.undef then proxySetNonstrict rename resubst s o.key v else s
      | none => s)
    st0
  let st2 := vars.options.foldl
    (fun s o =>
      match o.converter with
      | some c =>
        match dlookup values3 o.key with
        | some v =>
          if v ≠ Value.undef then
            proxySetNonstrict rename resubst s o.key
              (c (proxyGetNonstrictD rename iresubst s o.key Value.vnone))
          else s
        | none => s
      | none => s)
    st1
  let okAll := vars.options.all
    (fun o =>
      match o.validator with
      | some f =>
        match dlookup values3 o.key with
        | some _ => f o.key (proxyGetNonstrictD rename iresubst st2 o.key Value.vnone) st2
        | none => true
      | none => true)
  if okAll then Except.ok st2 else Except.error Err.validationError

/-- `_ArgumentDecl.add_to_env(env)`: IndexError without an ENV declaration;
otherwise `env.SetDefault(key = default)` unless the default is `_undef`,
in which case the store is left entirely alone. -/
def add_to_env (decl : ArgumentDecl) (env : Store) : Except Err Store :=
  match decl.envDecl with
  | none => Except.error Err.indexError
  | some e =>
    Except.ok (if e.default = Value.undef then env else setDefault env e.key e.default)

/-- `_ArgumentDecls._safe_add_to(ENV, env)`: `add_to_env` over every
declaration that has an ENV slot. -/
def safeAddToEnvAll (d : ArgumentDecls) (st : Store) : Store :=
  d.items.foldl
    (fun s p =>
      match p.2.envDecl with
      | some e => if e.default = Value.undef then s else setDefault s e.key e.default
      | none => s)
    st

/-- `_ArgumentDecls._safe_add_to(VAR, vars)`. -/
def safeAddToVarAll (d : ArgumentDecls) (vars : Variables) : Variables :=
  d.items.foldl
    (fun v p => match p.2.varDecl with | some vd => variablesAdd v vd | none => v)
    vars

/-- `_ArgumentDecls._safe_add_to(OPT)`: `AddOption` registrations, embedded
as a list of OPT declarations (the SCons global option registry). -/
def safeAddToOptAll (d : ArgumentDecls) (reg : List OptDecl) : List OptDecl :=
  d.items.foldl
    (fun r p => match p.2.optDecl with | some od => r ++ [od] | none => r)
    reg

/-- The three positional targets of `commit`/`add_to` (`env`, `vars`,
`options`) plus the global option registry `AddOption` writes into. -/
structure CommitTargets where
  env : Option Store
  vars : Option Variables
  createOptions : Bool
  optRegistry : List OptDecl

/-- `_ArgumentDecls.add_to(*args)`: NotCommittedError before commit;
otherwise materialize each truthy target in order ENV, VAR, OPT. -/
def decls_add_to (d : ArgumentDecls) (t : CommitTargets) : CommitTargets × Option Err :=
  if d.committed then
    let t1 := match t.env with
      | some st => { t with env := some (safeAddToEnvAll d st) }
      | none => t
    let t2 := match t1.vars with
      | some vs => { t1 with vars := some (safeAddToVarAll d vs) }
      | none => t1
    let t3 := if t2.createOptions then
        { t2 with optRegistry := safeAddToOptAll d t2.optRegistry }
      else t2
    (t3, none)
  else (t, some Err.notCommittedError)

/-- `_ArgumentDecls._resubst_decl_defaults(decl)`: rewrite each present
namespace default through the committed `resubst[ns]` table. -/
def resubstDeclDefaults (d : ArgumentDecls) (decl : ArgumentDecl) : ArgumentDecl :=
  [ENV, VAR, OPT].foldl
    (fun dc ns =>
      if dc.hasDecl ns then
        match dc.getDefault? ns with
        | some v => dc.setDefaultValue ns (resubstValue v (nsGet d.resubst ns))
        | none => dc
      else dc)
    decl

/-- `_ArgumentDecls.commit(*args)`: on the first call build the
resubst/iresubst tables, rewrite every declaration default, mark the set
committed and materialize the targets; any later call does nothing at all. -/
def decls_commit (d : ArgumentDecls) (t : CommitTargets) :
    (ArgumentDecls × CommitTargets) × Option Err :=
  if d.committed then ((d, t), none)
  else
    let d1 := { d with resubst :=
      (List.range ALL).map (fun ns => build_resubst_dict (nsGet d.rename ns)) }
    let d2 := { d1 with iresubst :=
      (List.range ALL).map (fun ns => build_iresubst_dict (nsGet d1.rename ns)) }
    let d3 := { d2 with items := (d2.items.map
      (fun (p : String × ArgumentDecl) => (p.1, resubstDeclDefaults d2 p.2))) }
    let d4 := { d3 with committed := true }
    match decls_add_to d4 t with
    | (t', e) => ((d4, t'), e)

/-- `_Arguments`: the Argument key list and the snapshot of the four table
families taken from a committed declaration set. -/
structure Arguments where
  keys : List String
  rename : List (List (String × String))
  irename : List (List (String × String))
  resubst : List (List (String × String))
  iresubst : List (List (String × String))

/-- `_Arguments.__init__(decls)` (via `__init_supp_dicts`): copy the key
list and the four table families; the resubst getters raise
NotCommittedError before commit. -/
def mkArguments (d : ArgumentDecls) : Except Err Arguments :=
  if d.committed then
    Except.ok
      ⟨d.items.map Prod.fst,
        [nsGet d.rename ENV, nsGet d.rename VAR, nsGet d.rename OPT],
        [nsGet d.irename ENV, nsGet d.irename VAR, nsGet d.irename OPT],
        [nsGet d.resubst ENV, nsGet d.resubst VAR, nsGet d.resubst OPT],
        [nsGet d.iresubst ENV, nsGet d.iresubst VAR, nsGet d.iresubst OPT]⟩
  else Except.error Err.notCommittedError

/-- `_Arguments.get_keys()` (the value of the returned list; the `[:]` copy
is treated separately with the heap model). -/
def get_keys (a : Arguments) : List String := a.keys

/-- `_Arguments.update_env_from_vars(env, vars, args)`: run the
reimplemented `Update` through the `VarEnvProxy` composition
(`irename[VAR] ∘ rename[ENV]`, with the derived resubstitution tables). -/
def update_env_from_vars (a : Arguments) (env : Store) (vars : Variables)
    (args? : Option (List (String × Value))) : Except Err Store :=
  match compose_mappings (nsGet a.irename VAR) (nsGet a.rename ENV) with
  | none => Except.error Err.keyError
  | some rename =>
    variablesUpdate vars rename (build_resubst_dict rename)
      (build_resubst_dict (invert_dict rename)) env args?

/-- The body of the `update_env_from_opts` loop for one `opt_key` (the
first component of an `irename[OPT]` item): read `GetOption` (embedded as
the oracle `getOption`) and, when the result is neither `None` nor `_undef`,
write it through the `OptEnvProxy`. -/
def optStep (rename resubst : List (String × String)) (getOption : String → Value)
    (s : Store) (p : String × String) : Store :=
  let v := getOption p.1
  if v ≠ Value.vnone ∧ v ≠ Value.undef then
    proxySetNonstrict rename resubst s p.1 v
  else s

/-- `_Arguments.update_env_from_opts(env)`: `optStep` over every key of
`irename[OPT]`, through the `OptEnvProxy` composition. -/
def update_env_from_opts (a : Arguments) (getOption : String → Value)
    (env : Store) : Except Err Store :=
  match compose_mappings (nsGet a.irename OPT) (nsGet a.rename ENV) with
  | none => Except.error Err.keyError
  | some rename =>
    Except.ok ((nsGet a.irename OPT).foldl
      (optStep rename (build_resubst_dict rename) getOption) env)

/-- `_Arguments.UpdateEnvironment(env, vars, use_options, args)`:
vars first (when given), options second (when enabled). -/
def UpdateEnvironment (a : Arguments) (env : Store) (vars : Option Variables)
    (use_options : Bool) (args? : Option (List (String × Value)))
    (getOption : String → Value) : Except Err Store :=
  let step1 := match vars with
    | some vs => update_env_from_vars a env vs args?
    | none => Except.ok env
  match step1 with
  | Except.error e => Except.error e
  | Except.ok env1 =>
    if use_options then update_env_from_opts a getOption env1 else Except.ok env1

/-- `_Arguments._is_unaltered(cur, org, v)` over two strict ENV proxies:
true when both lookups raise KeyError, or both succeed with equal values. -/
def is_unaltered (rename iresubst : List (String × String)) (cur org : Store)
    (v : String) : Bool :=
  match proxyGetStrict rename iresubst cur v with
  | none => (proxyGetStrict rename iresubst org v).isNone
  | some curval =>
    match proxyGetStrict rename iresubst org v with
    | none => false
    | some orgval => decide (curval = orgval)

/-- The body of the `GetUnaltered`/`GetAltered` loops for one Argument `k`:
when the selection predicate holds, `resp[k] = envp[k]` through the strict
ENV proxies (an uncaught KeyError on either side embeds as `Err.keyError`),
otherwise the result dictionary is left alone. -/
def collectStep (rename resubst iresubst : List (String × String)) (env : Store)
    (sel : String → Bool) (res : Store) (k : String) : Except Err Store :=
  if sel k then
    match proxyGetStrict rename iresubst env k with
    | none => Except.error Err.keyError
    | some v =>
      match proxySetStrict rename resubst res k v with
      | none => Except.error Err.keyError
      | some res1 => Except.ok res1
  else Except.ok res

/-- `_Arguments.GetUnaltered(env, org)`: collect, into a fresh dictionary
written through a strict ENV proxy, every Argument `_is_unaltered` accepts. -/
def GetUnaltered (a : Arguments) (env org : Store) : Except Err Store :=
  a.keys.foldlM
    (collectStep (nsGet a.rename ENV) (nsGet a.resubst ENV) (nsGet a.iresubst ENV) env
      (fun k => is_unaltered (nsGet a.rename ENV) (nsGet a.iresubst ENV) env org k))
    ([] : Store)

/-- `_Arguments.GetAltered(env, org)`: the complementary collection (the
loop body runs on `not _is_unaltered(...)`). -/
def GetAltered (a : Arguments) (env org : Store) : Except Err Store :=
  a.keys.foldlM
    (collectStep (nsGet a.rename ENV) (nsGet a.resubst ENV) (nsGet a.iresubst ENV) env
      (fun k => !(is_unaltered (nsGet a.rename ENV) (nsGet a.iresubst ENV) env org k)))
    ([] : Store)

/-- The body of the `Unmangle` loop for one Argument `k`: `res[k] = proxy[k]`
with the KeyError caught and the Argument omitted. -/
def unmangleStep (rename iresubst : List (String × String)) (env : Store)
    (res : Store) (k : String) : Store :=
  match proxyGetStrict rename iresubst env k with
  | some v => dictSet res k v
  | none => res

/-- `_Arguments.Unmangle(env)`: read every Argument through the strict ENV
proxy into a plain dictionary keyed by Argument names. -/
def Unmangle (a : Arguments) (env : Store) : Store :=
  a.keys.foldl
    (unmangleStep (nsGet a.rename ENV) (nsGet a.iresubst ENV) env) []

/-!
Reference-level model for the accessor-copy behaviour.  Python returns
dictionaries and lists by reference; `get_rename_dict` & co. return
`self.__table[ns].copy()` and `get_keys` returns `self.__keys[:]`.  To state
that these are defensive copies we model a heap of cells and references into
it: the table getters allocate a fresh cell holding the current table value
and return its reference. -/

/-- A heap of cells of type `α`; a reference is an index into `cells`. -/
structure Heap (α : Type) where
  cells : List α

/-- Allocate a fresh cell, returning the new heap and the new reference. -/
def heapAlloc {α : Type} (h : Heap α) (x : α) : Heap α × Nat :=
  (⟨h.cells ++ [x]⟩, h.cells.length)

/-- Dereference (out-of-range reads a default; valid references are
hypotheses of the theorems). -/
def heapRead {α : Type} [Inhabited α] (h : Heap α) (r : Nat) : α :=
  h.cells.getD r default

/-- In-place mutation of the referenced cell. -/
def heapWrite {α : Type} (h : Heap α) (r : Nat) (x : α) : Heap α :=
  ⟨h.cells.set r x⟩

/-- `_ArgumentDecls` at the reference level: the four table families hold
references to heap cells, one per namespace. -/
structure ArgumentDeclsRefs where
  renameRefs : List Nat
  irenameRefs : List Nat
  resubstRefs : List Nat
  iresubstRefs : List Nat
  committed : Bool

/-- Every internal table reference of the set. -/
def ArgumentDeclsRefs.allRefs (d : ArgumentDeclsRefs) : List Nat :=
  d.renameRefs ++ d.irenameRefs ++ d.resubstRefs ++ d.iresubstRefs

/-- `get_rename_dict(ns)` at the reference level: `self.__rename[ns].copy()`
allocates a fresh dictionary holding the same entries. -/
def get_rename_dict_ref (h : Heap (List (String × String))) (d : ArgumentDeclsRefs)
    (ns : Nat) : Heap (List (String × String)) × Nat :=
  heapAlloc h (heapRead h (d.renameRefs.getD ns 0))

/-- `get_irename_dict(ns)` at the reference level. -/
def get_irename_dict_ref (h : Heap (List (String × String))) (d : ArgumentDeclsRefs)
    (ns : Nat) : Heap (List (String × String)) × Nat :=
  heapAlloc h (heapRead h (d.irenameRefs.getD ns 0))

/-- `get_resubst_dict(ns)` at the reference level (NotCommittedError before
commit). -/
def get_resubst_dict_ref (h : Heap (List (String × String))) (d : ArgumentDeclsRefs)
    (ns : Nat) : Option (Heap (List (String × String)) × Nat) :=
  if d.committed then some (heapAlloc h (heapRead h (d.resubstRefs.getD ns 0)))
  else none

/-- `get_iresubst_dict(ns)` at the reference level. -/
def get_iresubst_dict_ref (h : Heap (List (String × String))) (d : ArgumentDeclsRefs)
    (ns : Nat) : Option (Heap (List (String × String)) × Nat) :=
  if d.committed then some (heapAlloc h (heapRead h (d.iresubstRefs.getD ns 0)))
  else none

/-- `_Arguments` at the reference level: the key list lives in a list heap. -/
structure ArgumentsRefs where
  keysRef : Nat

/-- `get_keys()` at the reference level: `self.__keys[:]` allocates a fresh
list with the same elements. -/
def get_keys_ref (h : Heap (List String)) (a : ArgumentsRefs) :
    Heap (List String) × Nat :=
  heapAlloc h (heapRead h a.keysRef)

/-! General lemmas about the dictionary and heap embeddings. -/

theorem dlookup_append {α : Type} (l1 l2 : List (String × α)) (k : String) :
    dlookup (l1 ++ l2) k =
      match dlookup l2 k with
      | some v => some v
      | none => dlookup l1 k := by
  induction l1 with
  | nil =>
    simp only [List.nil_append]
    cases h : dlookup l2 k <;> simp [dlookup, h]
  | cons p l1 ih =>
    simp only [List.cons_append, dlookup, List.append_eq]
    rw [ih]
    cases h : dlookup l2 k <;> cases h1 : dlookup l1 k <;> simp

theorem dlookup_isSome_any {α : Type} (xs : List (String × α)) (k : String) :
    xs.any (fun p => p.1 = k) = (dlookup xs k).isSome := by
  induction xs with
  | nil => simp [dlookup]
  | cons p xs ih =>
    simp only [List.any_cons, dlookup]
    cases h : dlookup xs k with
    | some v =>
      rw [h] at ih
      simp only [Option.isSome_some] at ih
      simp [ih]
    | none =>
      rw [h] at ih
      simp only [Option.isSome_none] at ih
      by_cases hp : p.1 = k <;> simp [hp, ih]

theorem dlookup_map_replace {α : Type} (xs : List (String × α)) (k k' : String) (v : α) :
    dlookup (xs.map (fun p => if p.1 = k then (k, v) else p)) k' =
      if k' = k then (dlookup xs k).map (fun _ => v) else dlookup xs k' := by
  induction xs with
  | nil => by_cases h : k' = k <;> simp [dlookup, h]
  | cons p xs ih =>
    simp only [List.map_cons, dlookup, ih]
    by_cases hk : k' = k
    · subst hk
      cases h : dlookup xs k' with
      | some w => by_cases hp : p.1 = k' <;> simp [h, hp]
      | none => by_cases hp : p.1 = k' <;> simp [h, hp]
    · cases h : dlookup xs k' with
      | some w => by_cases hp : p.1 = k <;> simp [h, hp, hk]
      | none =>
        by_cases hp : p.1 = k
        · have hne : k ≠ k' := fun hc => hk hc.symm
          simp [h, hp, hk, hne]
        · simp [h, hp, hk]

theorem dlookup_dictSet {α : Type} (xs : List (String × α)) (k k' : String) (v : α) :
    dlookup (dictSet xs k v) k' = if k' = k then some v else dlookup xs k' := by
  unfold dictSet
  by_cases hany : xs.any (fun p => p.1 = k) = true
  · rw [if_pos hany, dlookup_map_replace]
    rw [dlookup_isSome_any] at hany
    cases h : dlookup xs k with
    | some w => simp [h]
    | none => rw [h] at hany; simp at hany
  · rw [if_neg hany, dlookup_append]
    rw [dlookup_isSome_any] at hany
    cases h : dlookup xs k with
    | some w => rw [h] at hany; simp at hany
    | none =>
      by_cases hk : k' = k
      · subst hk
        simp [dlookup, h]
      · have : k ≠ k' := fun hc => hk hc.symm
        simp [dlookup, this, hk]

theorem dlookup_eq_none_iff {α : Type} (l : List (String × α)) (k : String) :
    dlookup l k = none ↔ k ∉ l.map Prod.fst := by
  induction l with
  | nil => simp [dlookup]
  | cons p l ih =>
    simp only [dlookup, List.map_cons, List.mem_cons]
    cases h : dlookup l k with
    | some v =>
      rw [h] at ih
      have hk : k ∈ l.map Prod.fst := by
        by_contra hc
        have := ih.mpr hc
        simp at this
      simp [hk]
    | none =>
      rw [h] at ih
      have hk : k ∉ l.map Prod.fst := ih.mp rfl
      by_cases hp : p.1 = k
      · simp [hp, hk]
      · have hp2 : ¬k = p.1 := fun hc => hp hc.symm
        simp [hp, hp2, hk]

theorem dlookup_dictDel {α : Type} (xs : List (String × α)) (k k' : String) :
    dlookup (dictDel xs k) k' = if k' = k then none else dlookup xs k' := by
  induction xs with
  | nil => by_cases h : k' = k <;> simp [dictDel, dlookup, h]
  | cons p xs ih =>
    simp only [dictDel, List.filter_cons] at ih ⊢
    by_cases hp : p.1 = k
    · have hb : (decide (p.1 ≠ k)) = false := by simp [hp]
      rw [hb]
      simp only [Bool.false_eq_true, if_false]
      rw [ih]
      by_cases hk : k' = k
      · simp [hk]
      · have hp2 : p.1 ≠ k' := by rw [hp]; exact fun hc => hk hc.symm
        simp only [if_neg hk, dlookup]
        cases h2 : dlookup xs k' <;> simp [hp2]
    · have hb : (decide (p.1 ≠ k)) = true := by simp [hp]
      rw [hb]
      simp only [if_true, dlookup]
      rw [ih]
      by_cases hk : k' = k
      · have hp2 : p.1 ≠ k' := hk ▸ hp
        simp [hk, hp2, hp]
      · simp only [if_neg hk]

theorem heapRead_alloc_old {α : Type} [Inhabited α] (h : Heap α) (x : α) (r : Nat)
    (hr : r < h.cells.length) :
    heapRead (heapAlloc h x).1 r = heapRead h r := by
  simp only [heapAlloc, heapRead]
  rw [List.getD_eq_getElem?_getD, List.getD_eq_getElem?_getD,
    List.getElem?_append_left hr]

theorem heapRead_alloc_new {α : Type} [Inhabited α] (h : Heap α) (x : α) :
    heapRead (heapAlloc h x).1 (heapAlloc h x).2 = x := by
  simp only [heapAlloc, heapRead]
  rw [List.getD_eq_getElem?_getD, List.getElem?_concat_length]
  rfl

theorem heapRead_write_other {α : Type} [Inhabited α] (h : Heap α) (x : α)
    (r r' : Nat) (hne : r' ≠ r) :
    heapRead (heapWrite h r x) r' = heapRead h r' := by
  simp only [heapWrite, heapRead]
  rw [List.getD_eq_getElem?_getD, List.getD_eq_getElem?_getD,
    List.getElem?_set_ne (fun hc => hne hc.symm)]

/-! Claim C7 / C8: the resubstitution table builders. -/

theorem build_iresubst_eq_invert (R : List (String × String)) :
    build_iresubst_dict R = build_resubst_dict (invert_dict R) := by
  induction R with
  | nil => rfl
  | cons p rest ih =>
    simp only [build_iresubst_dict, build_resubst_dict, invert_dict, List.map_cons,
      List.filter_cons, ne_eq, decide_not] at ih ⊢
    by_cases h : p.1 = p.2
    · simp [h, ih]
    · have h2 : p.2 ≠ p.1 := fun hc => h hc.symm
      simp [h, h2, ih]

theorem build_resubst_keys_sub (R : List (String × String)) (k : String) :
    k ∈ (build_resubst_dict R).map Prod.fst → k ∈ R.map Prod.fst := by
  intro h
  simp only [build_resubst_dict, List.map_map, List.mem_map] at h
  obtain ⟨p, hp, he⟩ := h
  exact List.mem_map.mpr ⟨p, (List.mem_filter.mp hp).1, by simpa using he⟩

theorem build_resubst_cons (p : String × String) (rest : List (String × String)) :
    build_resubst_dict (p :: rest) =
      if p.1 = p.2 then build_resubst_dict rest
      else (p.1, placeholder p.2) :: build_resubst_dict rest := by
  simp only [build_resubst_dict, List.filter_cons]
  by_cases h : p.1 = p.2
  · simp [h]
  · simp [h]

theorem dlookup_build_resubst (R : List (String × String)) (k : String)
    (h : (R.map Prod.fst).Nodup) :
    dlookup (build_resubst_dict R) k =
      (dlookup R k).bind (fun v => if k = v then none else some (placeholder v)) := by
  induction R with
  | nil => simp [build_resubst_dict, dlookup]
  | cons p rest ih =>
    simp only [List.map_cons, List.nodup_cons] at h
    obtain ⟨hp, hrest⟩ := h
    have ihr := ih hrest
    rw [build_resubst_cons]
    by_cases hk : p.1 = k
    · subst hk
      have hnone : dlookup rest p.1 = none :=
        (dlookup_eq_none_iff rest p.1).mpr hp
      have hbnone : dlookup (build_resubst_dict rest) p.1 = none :=
        (dlookup_eq_none_iff _ p.1).mpr
          (fun hc => ((dlookup_eq_none_iff rest p.1).mp hnone) (build_resubst_keys_sub rest p.1 hc))
      by_cases hid : p.1 = p.2
      · rw [if_pos hid, hbnone]
        rw [hid] at hnone
        simp [dlookup, hnone, hid]
      · rw [if_neg hid]
        simp [dlookup, hbnone, hnone, hid]
    · by_cases hid : p.1 = p.2
      · rw [if_pos hid, ihr]
        simp only [dlookup]
        cases h2 : dlookup rest k with
        | some v => simp
        | none => simp [hk]
      · rw [if_neg hid]
        simp only [dlookup]
        rw [ihr]
        cases h2 : dlookup rest k with
        | some v =>
          by_cases hv : k = v
          · subst hv
            simp [hk]
          · simp [hk, hv]
        | none => simp [hk]

/-- C7: for a rename dictionary with pairwise-distinct values (which the
`irename` tables of a declaration set enforce), `_build_iresubst_dict R`
equals, as a dictionary (pointwise lookup), `_build_resubst_dict` applied to
`_invert_dict R`: the two table builders are exact inverses. -/
theorem C7_iresubst_dual (R : List (String × String))
    (hv : (R.map Prod.snd).Nodup) :
    ∀ k, dlookup (build_iresubst_dict R) k =
      dlookup (build_resubst_dict (invert_dict R)) k := by
  intro k
  rw [build_iresubst_eq_invert]

theorem C7_iresubst_dual_witness :
    (([("a", "b"), ("c", "d")].map Prod.snd).Nodup) ∧
      (∀ k, dlookup (build_iresubst_dict [("a", "b"), ("c", "d")]) k =
        dlookup (build_resubst_dict (invert_dict [("a", "b"), ("c", "d")])) k) :=
  ⟨by decide, C7_iresubst_dual [("a", "b"), ("c", "d")] (by decide)⟩

/-- C8: `_build_resubst_dict R` maps exactly the keys `k` of `R` with
`R[k] ≠ k` to `"${R[k]}"`; `_build_iresubst_dict R` maps exactly the values
`v = R[k]` with `k ≠ v` to `"${k}"` (keyed through the inverted dictionary);
identity entries are dropped, so `_build_resubst_dict {"a":"a","b":"c"}`
is `{"b": "${c}"}`. -/
theorem C8_build_dict_spec :
    (∀ (R : List (String × String)) (k : String), (R.map Prod.fst).Nodup →
      dlookup (build_resubst_dict R) k =
        (dlookup R k).bind (fun v => if k = v then none else some (placeholder v)))
    ∧ (∀ (R : List (String × String)) (v : String), (R.map Prod.snd).Nodup →
      dlookup (build_iresubst_dict R) v =
        (dlookup (invert_dict R) v).bind
          (fun k => if v = k then none else some (placeholder k)))
    ∧ build_resubst_dict [("a", "a"), ("b", "c")] = [("b", "${c}")] := by
  refine ⟨fun R k h => dlookup_build_resubst R k h, fun R v hv => ?_, by decide⟩
  rw [build_iresubst_eq_invert]
  refine dlookup_build_resubst (invert_dict R) v ?_
  have : (invert_dict R).map Prod.fst = R.map Prod.snd := by
    simp [invert_dict, List.map_map, Function.comp]
  rw [this]
  exact hv

theorem C8_build_dict_spec_witness :
    (([("a", "a"), ("b", "c")].map Prod.fst).Nodup) ∧
    dlookup (build_resubst_dict [("a", "a"), ("b", "c")]) "b" =
      (dlookup [("a", "a"), ("b", "c")] "b").bind
        (fun v => if "b" = v then none else some (placeholder v)) ∧
    (([("x", "X"), ("y", "Y")].map Prod.snd).Nodup) ∧
    dlookup (build_iresubst_dict [("x", "X"), ("y", "Y")]) "X" =
      (dlookup (invert_dict [("x", "X"), ("y", "Y")]) "X").bind
        (fun k => if "X" = k then none else some (placeholder k)) :=
  ⟨by decide, C8_build_dict_spec.1 [("a", "a"), ("b", "c")] "b" (by decide),
    by decide, C8_build_dict_spec.2.1 [("x", "X"), ("y", "Y")] "X" (by decide)⟩

/-! Claim C2: the `_resubst` placeholder substitution. -/

theorem isIdentStart_cont {c : Char} (h : isIdentStart c = true) :
    isIdentCont c = true := by
  simp [isIdentCont, h]

theorem isIdentStart_not_dollar {c : Char} (h : isIdentStart c = true) : c ≠ '$' := by
  intro hc
  subst hc
  exact absurd h (by decide)

theorem isIdentStart_not_obrace {c : Char} (h : isIdentStart c = true) : c ≠ obrace := by
  intro hc
  subst hc
  exact absurd h (by decide)

theorem takeIdent_split (l r : List Char) (hl : ∀ x ∈ l, isIdentCont x = true)
    (hr : ∀ x, r.head? = some x → isIdentCont x = false) :
    takeIdent (l ++ r) = (l, r) := by
  induction l with
  | nil =>
    cases r with
    | nil => rfl
    | cons c rs =>
      have := hr c rfl
      simp [takeIdent, this]
  | cons c l ih =>
    have hc : isIdentCont c = true := hl c (List.mem_cons_self c l)
    have ihr := ih (fun x hx => hl x (List.mem_cons_of_mem c hx))
    simp [takeIdent, hc, ihr]

theorem scanSubst_cons (table : List (String × String)) (c0 : Char) (rest : List Char) :
    scanSubst table (c0 :: rest) =
      if c0 = '$' then
        (parseDollar table rest).1 ++ scanSubst table (parseDollar table rest).2
      else c0 :: scanSubst table rest := by
  show scanSubstF table (c0 :: rest).length (c0 :: rest) = _
  simp only [List.length_cons, scanSubstF]
  by_cases hc : c0 = '$'
  · simp only [hc, if_pos rfl]
    rw [scanSubstF_fuel_irrel table rest.length (parseDollar table rest).2
      (parseDollar table rest).2.length (parseDollar_snd_length table rest) (Nat.le_refl _)]
    rfl
  · simp only [hc, if_false]
    rfl

theorem parseDollar_braced (table : List (String × String)) (c : Char)
    (cs rest : List Char) (hc : isIdentStart c = true)
    (hcs : ∀ x ∈ cs, isIdentCont x = true) :
    parseDollar table (obrace :: c :: (cs ++ cbrace :: rest)) =
      (subBraced table (c :: cs), rest) := by
  have ht : takeIdent (c :: (cs ++ cbrace :: rest)) = (c :: cs, cbrace :: rest) := by
    have h1 : ∀ x ∈ c :: cs, isIdentCont x = true := by
      intro x hx
      rcases List.mem_cons.mp hx with h | h
      · subst h; exact isIdentStart_cont hc
      · exact hcs x h
    have h2 : ∀ x, (cbrace :: rest).head? = some x → isIdentCont x = false := by
      intro x hx
      simp only [List.head?_cons, Option.some.injEq] at hx
      subst hx
      decide
    simpa using takeIdent_split (c :: cs) (cbrace :: rest) h1 h2
  simp only [parseDollar]
  rw [if_neg (by decide), ht]
  simp [hc]

theorem parseDollar_plain (table : List (String × String)) (c : Char)
    (cs rest : List Char) (hc : isIdentStart c = true)
    (hcs : ∀ x ∈ cs, isIdentCont x = true)
    (hrest : ∀ x, rest.head? = some x → isIdentCont x = false) :
    parseDollar table (c :: (cs ++ rest)) = (subPlain table (c :: cs), rest) := by
  have ht : takeIdent (c :: (cs ++ rest)) = (c :: cs, rest) := by
    have h1 : ∀ x ∈ c :: cs, isIdentCont x = true := by
      intro x hx
      rcases List.mem_cons.mp hx with h | h
      · subst h; exact isIdentStart_cont hc
      · exact hcs x h
    simpa using takeIdent_split (c :: cs) rest h1 hrest
  simp only [parseDollar]
  rw [if_neg (isIdentStart_not_dollar hc), if_neg (isIdentStart_not_obrace hc),
    if_pos hc, ht]

/-- C2: `_resubst(value, table)` returns a non-string value unchanged; on a
string it is one total (never-raising) left-to-right pass: an occurrence
`${name}`/`$name` with `name` a key of `table` is replaced by `table[name]`,
an occurrence whose `name` is not a key stays verbatim, the replacement text
is never re-scanned (the recursion continues on the characters after the
occurrence only), and any other character is copied. -/
theorem C2_resubst_spec :
    (∀ (v : Value) (table : List (String × String)),
      v.isString = false → resubstValue v table = v)
    ∧ (∀ (s : String) (table : List (String × String)),
      ∃ s' : String, resubstValue (Value.str s) table = Value.str s')
    ∧ (∀ (table : List (String × String)) (c : Char) (cs rest : List Char),
      isIdentStart c = true → (∀ x ∈ cs, isIdentCont x = true) →
      scanSubst table ('$' :: obrace :: c :: (cs ++ cbrace :: rest)) =
        (match dlookup table (String.mk (c :: cs)) with
          | some v => v.data
          | none => '$' :: obrace :: (c :: cs) ++ [cbrace]) ++ scanSubst table rest)
    ∧ (∀ (table : List (String × String)) (c : Char) (cs rest : List Char),
      isIdentStart c = true → (∀ x ∈ cs, isIdentCont x = true) →
      (∀ x, rest.head? = some x → isIdentCont x = false) →
      scanSubst table ('$' :: c :: (cs ++ rest)) =
        (match dlookup table (String.mk (c :: cs)) with
          | some v => v.data
          | none => '$' :: c :: cs) ++ scanSubst table rest)
    ∧ (∀ (table : List (String × String)) (c : Char) (l : List Char),
      c ≠ '$' → scanSubst table (c :: l) = c :: scanSubst table l) := by
  refine ⟨?_, ?_, ?_, ?_, ?_⟩
  · intro v table hv
    cases v <;> simp_all [resubstValue, Value.isString]
  · intro s table
    exact ⟨String.mk (scanSubst table s.data), rfl⟩
  · intro table c cs rest hc hcs
    rw [scanSubst_cons, if_pos rfl, parseDollar_braced table c cs rest hc hcs]
    simp [subBraced]
  · intro table c cs rest hc hcs hrest
    rw [scanSubst_cons, if_pos rfl, parseDollar_plain table c cs rest hc hcs hrest]
    simp [subPlain]
  · intro table c l hcne
    rw [scanSubst_cons, if_neg hcne]

theorem C2_resubst_spec_witness :
    (Value.other 7).isString = false ∧
    resubstValue (Value.other 7) [("xxx", "${yyy}")] = Value.other 7 ∧
    (isIdentStart 'x' = true) ∧
    scanSubst [("xxx", "${yyy}")] ('$' :: obrace :: 'x' :: (['x', 'x'] ++ cbrace :: [])) =
      (match dlookup [("xxx", "${yyy}")] (String.mk ('x' :: ['x', 'x'])) with
        | some v => v.data
        | none => '$' :: obrace :: ('x' :: ['x', 'x']) ++ [cbrace]) ++
        scanSubst [("xxx", "${yyy}")] [] ∧
    scanSubst [("xxx", "${yyy}")] ('$' :: 'q' :: (['q'] ++ [])) =
      (match dlookup [("xxx", "${yyy}")] (String.mk ('q' :: ['q'])) with
        | some v => v.data
        | none => '$' :: 'q' :: ['q']) ++ scanSubst [("xxx", "${yyy}")] [] :=
  ⟨by decide,
    C2_resubst_spec.1 (Value.other 7) [("xxx", "${yyy}")] (by decide),
    by decide,
    C2_resubst_spec.2.2.1 [("xxx", "${yyy}")] 'x' ['x', 'x'] [] (by decide) (by decide),
    C2_resubst_spec.2.2.2.1 [("xxx", "${yyy}")] 'q' ['q'] [] (by decide) (by decide)
      (by intro x hx; simp at hx)⟩

/-! Claim C5: `add_to_env` / SetDefault materialization. -/

/-- C5: for an Argument with an ENV declaration, `add_to_env` leaves the
store entirely alone when the default is UNDEFINED (so the key exists
afterwards only if it existed before); otherwise it writes through
`SetDefault`: an existing value is never overwritten, an absent key is set
to the default, and no other key changes. -/
theorem C5_add_to_env_spec (decl : ArgumentDecl) (e : EnvDecl) (st : Store)
    (he : decl.envDecl = some e) :
    (e.default = Value.undef → add_to_env decl st = Except.ok st)
    ∧ (e.default ≠ Value.undef →
        add_to_env decl st = Except.ok (setDefault st e.key e.default)
        ∧ (∀ w, storeGet st e.key = some w →
            storeGet (setDefault st e.key e.default) e.key = some w)
        ∧ (storeGet st e.key = none →
            storeGet (setDefault st e.key e.default) e.key = some e.default)
        ∧ (∀ k, k ≠ e.key →
            storeGet (setDefault st e.key e.default) k = storeGet st k)) := by
  constructor
  · intro hu
    simp [add_to_env, he, hu]
  · intro hu
    refine ⟨by simp [add_to_env, he, hu], ?_, ?_, ?_⟩
    · intro w hw
      simp [setDefault, storeGet] at hw ⊢
      simp [hw]
    · intro h0
      simp [setDefault, storeGet] at h0 ⊢
      simp [h0, dlookup_dictSet]
    · intro k hk
      by_cases hs : (dlookup st e.key).isSome <;>
        simp [setDefault, storeGet, hs, dlookup_dictSet, hk]

theorem C5_add_to_env_spec_witness :
    add_to_env ⟨some ⟨"K", Value.undef⟩, none, none⟩ [("A", Value.str "a")] =
      Except.ok [("A", Value.str "a")] ∧
    add_to_env ⟨some ⟨"K", Value.str "d"⟩, none, none⟩ [("K", Value.str "old")] =
      Except.ok (setDefault [("K", Value.str "old")] "K" (Value.str "d")) ∧
    storeGet (setDefault [("K", Value.str "old")] "K" (Value.str "d")) "K" =
      some (Value.str "old") ∧
    storeGet (setDefault ([] : Store) "K" (Value.str "d")) "K" = some (Value.str "d") :=
  ⟨(C5_add_to_env_spec ⟨some ⟨"K", Value.undef⟩, none, none⟩ ⟨"K", Value.undef⟩
      [("A", Value.str "a")] rfl).1 rfl,
    ((C5_add_to_env_spec ⟨some ⟨"K", Value.str "d"⟩, none, none⟩ ⟨"K", Value.str "d"⟩
      [("K", Value.str "old")] rfl).2 (by decide)).1,
    ((C5_add_to_env_spec ⟨some ⟨"K", Value.str "d"⟩, none, none⟩ ⟨"K", Value.str "d"⟩
      [("K", Value.str "old")] rfl).2 (by decide)).2.1 (Value.str "old") (by decide),
    ((C5_add_to_env_spec ⟨some ⟨"K", Value.str "d"⟩, none, none⟩ ⟨"K", Value.str "d"⟩
      [] rfl).2 (by decide)).2.2.1 (by decide)⟩

/-! Claim C3: freeze enforcement and commit idempotence. -/

/-- C3: once `committed` is true, every mutating operation returns the
frozen-state error with the set (and so all its tables) unchanged, and a
second `commit` is a strict no-op: no error, no table building, no default
rewriting, no materialization into any target. -/
theorem C3_frozen_spec (d : ArgumentDecls) (hc : d.committed = true) :
    (∀ k v, decls_setitem d k v = (d, some Err.frozenError))
    ∧ (∀ k, decls_delitem d k = (d, some Err.frozenError))
    ∧ (∀ l, decls_update d l = (d, some Err.frozenError))
    ∧ decls_clear d = (d, some Err.frozenError)
    ∧ (∀ k, decls_pop d k = ((d, none), some Err.frozenError))
    ∧ decls_popitem d = ((d, none), some Err.frozenError)
    ∧ (∀ k v, decls_setdefault d k v = ((d, none), some Err.frozenError))
    ∧ (∀ ns k nsk, decls_set_key d ns k nsk = (d, some Err.frozenError))
    ∧ (∀ t, decls_commit d t = ((d, t), none)) := by
  refine ⟨fun k v => ?_, fun k => ?_, fun l => ?_, ?_, fun k => ?_, ?_,
    fun k v => ?_, fun ns k nsk => ?_, fun t => ?_⟩
  · simp [decls_setitem, hc]
  · simp [decls_delitem, hc]
  · simp [decls_update, hc]
  · simp [decls_clear, hc]
  · simp [decls_pop, hc]
  · simp [decls_popitem, hc]
  · simp [decls_setdefault, hc]
  · simp [decls_set_key, hc]
  · simp [decls_commit, hc]

/-- A small declaration set committed through the real pipeline, used to
instantiate the freeze theorem. -/
def c3Committed : ArgumentDecls :=
  (decls_commit
    (decls_setitem ⟨[], [[], [], []], [[], [], []], [[], [], []], [[], [], []], false⟩
      "foo" ⟨some ⟨"ENV_FOO", Value.vnone⟩, none, none⟩).1
    ⟨some [], none, false, []⟩).1.1

theorem C3_frozen_spec_witness :
    c3Committed.committed = true ∧
    (decls_setitem c3Committed "x" ⟨some ⟨"E", Value.vnone⟩, none, none⟩ =
      (c3Committed, some Err.frozenError)) ∧
    (decls_set_key c3Committed ENV "foo" "E2" = (c3Committed, some Err.frozenError)) ∧
    (∀ t, decls_commit c3Committed t = ((c3Committed, t), none)) :=
  ⟨rfl,
    (C3_frozen_spec c3Committed rfl).1 "x" ⟨some ⟨"E", Value.vnone⟩, none, none⟩,
    (C3_frozen_spec c3Committed rfl).2.2.2.2.2.2.2.1 ENV "foo" "E2",
    (C3_frozen_spec c3Committed rfl).2.2.2.2.2.2.2.2⟩

/-! Claim C4: duplicate namespace-key detection on insertion. -/

theorem appendKey_items (d : ArgumentDecls) (ns : Nat) (k nsk : String) :
    (appendKeyToSuppDicts d ns k nsk).1.items = d.items := by
  unfold appendKeyToSuppDicts
  split_ifs <;> rfl

theorem appendDeclFold_items (key : String) (decl : ArgumentDecl) :
    ∀ (l : List Nat) (acc : ArgumentDecls × Option Err),
      (l.foldl
        (fun acc ns =>
          match acc.2 with
          | some _ => acc
          | none =>
            if decl.hasDecl ns then
              match decl.getKey? ns with
              | some nsk => appendKeyToSuppDicts acc.1 ns key nsk
              | none => acc
            else acc)
        acc).1.items = acc.1.items := by
  intro l
  induction l with
  | nil => intro acc; rfl
  | cons ns l ih =>
    intro acc
    rw [List.foldl_cons, ih]
    match h : acc.2 with
    | some e => simp [h]
    | none =>
      simp only
      by_cases hd : decl.hasDecl ns
      · simp only [hd, if_true]
        match hk : decl.getKey? ns with
        | some nsk => simp [appendKey_items]
        | none => rfl
      · simp [hd]

theorem appendDecl_items (d : ArgumentDecls) (k : String) (v : ArgumentDecl) :
    (appendDeclToSuppDicts d k v).1.items = d.items :=
  appendDeclFold_items k v [ENV, VAR, OPT] (d, none)

/-- C4 (amended): a clashing insertion raises DuplicateKeyError and the main
declaration mapping is always left unchanged; when the clash is in the ENV
namespace (the first one registered) nothing at all is modified.  (The
all-or-nothing part of the original claim fails: namespaces registered
before the clashing one keep their new table entries, see the
counterexample.) -/
theorem C4_duplicate_insert (d : ArgumentDecls) (k : String) (v : ArgumentDecl) :
    ((decls_setitem d k v).2 = some Err.duplicateKeyError →
      (decls_setitem d k v).1.items = d.items)
    ∧ (∀ e : EnvDecl, d.committed = false → v.envDecl = some e →
      (dlookup (nsGet d.irename ENV) e.key).isSome = true →
      decls_setitem d k v = (d, some Err.duplicateKeyError)) := by
  constructor
  · intro hdup
    by_cases hc : d.committed
    · simp [decls_setitem, hc] at hdup
    · have hitems := appendDecl_items d k v
      simp only [decls_setitem, hc, Bool.false_eq_true, if_false] at hdup ⊢
      rcases hsplit : appendDeclToSuppDicts d k v with ⟨d1, e?⟩
      rw [hsplit] at hitems hdup
      cases e? with
      | some e => exact hitems
      | none => exact Option.noConfusion hdup
  · intro e hc he hk
    simp only [decls_setitem, hc, Bool.false_eq_true, if_false]
    have hstep : appendDeclToSuppDicts d k v = (d, some Err.duplicateKeyError) := by
      simp [appendDeclToSuppDicts, ArgumentDecl.hasDecl, ArgumentDecl.getKey?,
        appendKeyToSuppDicts, dictHasKey, he, hk]
    rw [hstep]

/-- A set holding one Argument `a` that claims ENV key `X` and VAR key `V`. -/
def c4Set : ArgumentDecls :=
  (decls_setitem ⟨[], [[], [], []], [[], [], []], [[], [], []], [[], [], []], false⟩
    "a" ⟨some ⟨"X", Value.vnone⟩, some ⟨"V", none, none, none, none⟩, none⟩).1

/-- C4 counterexample: inserting `b` with a fresh ENV key `Y` and a clashing
VAR key `V` raises DuplicateKeyError, yet the rename tables are *not* left
as they were — the ENV tables keep `b ↦ Y` — so the failed insertion is not
all-or-nothing. -/
theorem C4_duplicate_insert_cex :
    (decls_setitem c4Set "b"
      ⟨some ⟨"Y", Value.vnone⟩, some ⟨"V", none, none, none, none⟩, none⟩).2 =
      some Err.duplicateKeyError ∧
    (decls_setitem c4Set "b"
      ⟨some ⟨"Y", Value.vnone⟩, some ⟨"V", none, none, none, none⟩, none⟩).1.rename ≠
      c4Set.rename := by
  constructor
  · decide
  · decide

theorem C4_duplicate_insert_witness :
    ((decls_setitem c4Set "b"
        ⟨some ⟨"Y", Value.vnone⟩, some ⟨"V", none, none, none, none⟩, none⟩).2 =
      some Err.duplicateKeyError) ∧
    ((decls_setitem c4Set "b"
        ⟨some ⟨"Y", Value.vnone⟩, some ⟨"V", none, none, none, none⟩, none⟩).1.items =
      c4Set.items) ∧
    (decls_setitem c4Set "b" ⟨some ⟨"X", Value.vnone⟩, none, none⟩ =
      (c4Set, some Err.duplicateKeyError)) :=
  ⟨by decide,
    (C4_duplicate_insert c4Set "b"
      ⟨some ⟨"Y", Value.vnone⟩, some ⟨"V", none, none, none, none⟩, none⟩).1 (by decide),
    (C4_duplicate_insert c4Set "b" ⟨some ⟨"X", Value.vnone⟩, none, none⟩).2
      ⟨"X", Value.vnone⟩ (by decide) rfl (by decide)⟩

/-! Claim C9: `Unmangle`. -/

theorem unmangle_fold (rename iresubst : List (String × String)) (env : Store) :
    ∀ (keys : List String) (res0 : Store) (k : String),
      dlookup (keys.foldl (unmangleStep rename iresubst env) res0) k =
      match proxyGetStrict rename iresubst env k with
      | some v => if k ∈ keys then some v else dlookup res0 k
      | none => dlookup res0 k := by
  intro keys
  induction keys with
  | nil =>
    intro res0 k
    cases proxyGetStrict rename iresubst env k <;> simp
  | cons k0 ks ih =>
    intro res0 k
    rw [List.foldl_cons]
    cases h0 : proxyGetStrict rename iresubst env k0 with
    | some v0 =>
      rw [show unmangleStep rename iresubst env res0 k0 = dictSet res0 k0 v0 from by
        simp [unmangleStep, h0]]
      rw [ih (dictSet res0 k0 v0) k]
      cases hk : proxyGetStrict rename iresubst env k with
      | some v =>
        by_cases hmem : k ∈ ks
        · simp [hmem, List.mem_cons]
        · simp only [hmem, if_false]
          rw [dlookup_dictSet]
          by_cases hke : k = k0
          · subst hke
            rw [h0] at hk
            injection hk with hv
            subst hv
            simp [List.mem_cons]
          · simp [hke, List.mem_cons, hmem]
      | none =>
        rw [dlookup_dictSet]
        by_cases hke : k = k0
        · subst hke
          rw [h0] at hk
          cases hk
        · simp [hke]
    | none =>
      rw [show unmangleStep rename iresubst env res0 k0 = res0 from by
        simp [unmangleStep, h0]]
      rw [ih res0 k]
      cases hk : proxyGetStrict rename iresubst env k with
      | some v =>
        by_cases hmem : k ∈ ks
        · simp [hmem, List.mem_cons]
        · by_cases hke : k = k0
          · subst hke
            rw [h0] at hk
            cases hk
          · simp [hke, hmem, List.mem_cons]
      | none => rfl

/-- C9 (amended): for a declared Argument whose ENV key is present in the
store, `Unmangle` returns the stored value passed through the inverse
resubstitution table `iresubst[ENV]` (so a string value holding a mapped
`${ENV_key}` placeholder comes back rewritten into Argument space, *not*
verbatim equal to `store.get(env_key)` — see the counterexample); an
Argument whose ENV key is absent from the store is omitted. -/
theorem C9_unmangle_spec (a : Arguments) (env : Store) (k tk : String)
    (hmem : k ∈ a.keys) (htk : dlookup (nsGet a.rename ENV) k = some tk) :
    (∀ v, storeGet env tk = some v →
      dlookup (Unmangle a env) k = some (resubstValue v (nsGet a.iresubst ENV)))
    ∧ (storeGet env tk = none → dlookup (Unmangle a env) k = none) := by
  constructor
  · intro v hv
    unfold Unmangle
    rw [unmangle_fold]
    simp [proxyGetStrict, htk, storeGet] at hv ⊢
    simp [hv, hmem]
  · intro hv
    unfold Unmangle
    rw [unmangle_fold]
    simp [proxyGetStrict, htk, storeGet] at hv ⊢
    simp [hv, dlookup]

/-- A two-Argument declaration set (`foo ↦ ENV_FOO` with default
`"${bar}"`, `bar ↦ ENV_BAR` with default `"x"`), committed into an empty
environment through the real pipeline. -/
def c9Decls : ArgumentDecls :=
  (decls_setitem
    (decls_setitem ⟨[], [[], [], []], [[], [], []], [[], [], []], [[], [], []], false⟩
      "foo" ⟨some ⟨"ENV_FOO", Value.str "${bar}"⟩, none, none⟩).1
    "bar" ⟨some ⟨"ENV_BAR", Value.str "x"⟩, none, none⟩).1

/-- The committed set and the environment `add_to` populated. -/
def c9Commit : (ArgumentDecls × CommitTargets) × Option Err :=
  decls_commit c9Decls ⟨some [], none, false, []⟩

/-- The resolved `_Arguments` object of the committed set. -/
def c9Args : Arguments :=
  match mkArguments c9Commit.1.1 with
  | Except.ok a => a
  | Except.error _ => ⟨[], [], [], [], []⟩

/-- The environment store populated by the commit. -/
def c9Env : Store := (c9Commit.1.2.env).getD []

/-- C9 counterexample: over the committed set above the store holds
`ENV_FOO = "${ENV_BAR}"` (the default rewritten at commit), and
`Unmangle` returns `"${bar}"` for `foo` — the placeholder rewritten back to
Argument space — which differs from `store.get(ENV_FOO)`, refuting the
claimed verbatim equality. -/
theorem C9_unmangle_cex :
    storeGet c9Env "ENV_FOO" = some (Value.str "${ENV_BAR}") ∧
    dlookup (Unmangle c9Args c9Env) "foo" = some (Value.str "${bar}") ∧
    dlookup (Unmangle c9Args c9Env) "foo" ≠ storeGet c9Env "ENV_FOO" := by
  refine ⟨by decide, by decide, by decide⟩

theorem C9_unmangle_spec_witness :
    ("foo" ∈ c9Args.keys) ∧
    (dlookup (nsGet c9Args.rename ENV) "foo" = some "ENV_FOO") ∧
    (storeGet c9Env "ENV_FOO" = some (Value.str "${ENV_BAR}")) ∧
    dlookup (Unmangle c9Args c9Env) "foo" =
      some (resubstValue (Value.str "${ENV_BAR}") (nsGet c9Args.iresubst ENV)) ∧
    (storeGet c9Env "ENV_MISSING" = none) :=
  ⟨by decide, by decide, by decide,
    (C9_unmangle_spec c9Args c9Env "foo" "ENV_FOO" (by decide) (by decide)).1
      (Value.str "${ENV_BAR}") (by decide),
    by decide⟩

/-! Claim C6: `_is_unaltered` and the `GetAltered`/`GetUnaltered` partition. -/

theorem is_unaltered_iff (rename iresubst : List (String × String))
    (cur org : Store) (v : String) :
    is_unaltered rename iresubst cur org v = true ↔
      ((proxyGetStrict rename iresubst cur v = none ∧
          proxyGetStrict rename iresubst org v = none)
        ∨ ∃ w, proxyGetStrict rename iresubst cur v = some w ∧
            proxyGetStrict rename iresubst org v = some w) := by
  unfold is_unaltered
  cases hc : proxyGetStrict rename iresubst cur v with
  | none => cases ho : proxyGetStrict rename iresubst org v <;> simp
  | some cv =>
    cases ho : proxyGetStrict rename iresubst org v with
    | none => simp
    | some ov => simp [eq_comm]

theorem collect_fold (rename resubst iresubst : List (String × String))
    (env : Store) (sel : String → Bool) :
    ∀ (keys : List String) (res0 : Store),
      (∀ k ∈ keys, sel k = true →
        ∃ tk, dlookup rename k = some tk ∧ (dlookup env tk).isSome = true) →
      ∃ res,
        keys.foldlM (collectStep rename resubst iresubst env sel) res0 =
          Except.ok res ∧
        ∀ tk, ((dlookup res tk).isSome = true ↔
          ((dlookup res0 tk).isSome = true ∨
            ∃ k, k ∈ keys ∧ dlookup rename k = some tk ∧ sel k = true)) := by
  intro keys
  induction keys with
  | nil =>
    intro res0 _
    refine ⟨res0, rfl, fun tk => by simp⟩
  | cons k0 ks ih =>
    intro res0 hread
    by_cases hs : sel k0 = true
    · obtain ⟨tk0, htk0, hsome⟩ := hread k0 (List.mem_cons_self k0 ks) hs
      obtain ⟨w, hw⟩ := Option.isSome_iff_exists.mp hsome
      have hstep : collectStep rename resubst iresubst env sel res0 k0 =
          Except.ok (dictSet res0 tk0 (resubstValue (resubstValue w iresubst) resubst)) := by
        simp [collectStep, hs, proxyGetStrict, proxySetStrict, htk0, hw]
      obtain ⟨res, hres, hiff⟩ :=
        ih (dictSet res0 tk0 (resubstValue (resubstValue w iresubst) resubst))
          (fun k hk hsk => hread k (List.mem_cons_of_mem k0 hk) hsk)
      refine ⟨res, ?_, ?_⟩
      · rw [List.foldlM_cons, hstep]
        exact hres
      · intro tk
        rw [hiff tk, dlookup_dictSet]
        by_cases hte : tk = tk0
        · subst hte
          simp only [if_pos rfl, Option.isSome_some]
          constructor
          · intro _
            exact Or.inr ⟨k0, List.mem_cons_self k0 ks, htk0, hs⟩
          · intro _
            exact Or.inl rfl
        · simp only [if_neg hte]
          constructor
          · rintro (h | ⟨k, hk, hrk, hsk⟩)
            · exact Or.inl h
            · exact Or.inr ⟨k, List.mem_cons_of_mem k0 hk, hrk, hsk⟩
          · rintro (h | ⟨k, hk, hrk, hsk⟩)
            · exact Or.inl h
            · rcases List.mem_cons.mp hk with hk0 | hk'
              · subst hk0
                rw [htk0] at hrk
                injection hrk with he
                exact absurd he.symm hte
              · exact Or.inr ⟨k, hk', hrk, hsk⟩
    · have hstep : collectStep rename resubst iresubst env sel res0 k0 =
          Except.ok res0 := by
        simp [collectStep, hs]
      obtain ⟨res, hres, hiff⟩ :=
        ih res0 (fun k hk hsk => hread k (List.mem_cons_of_mem k0 hk) hsk)
      refine ⟨res, ?_, ?_⟩
      · rw [List.foldlM_cons, hstep]
        exact hres
      · intro tk
        rw [hiff tk]
        constructor
        · rintro (h | ⟨k, hk, hrk, hsk⟩)
          · exact Or.inl h
          · exact Or.inr ⟨k, List.mem_cons_of_mem k0 hk, hrk, hsk⟩
        · rintro (h | ⟨k, hk, hrk, hsk⟩)
          · exact Or.inl h
          · rcases List.mem_cons.mp hk with hk0 | hk'
            · subst hk0
              exact absurd hsk hs
            · exact Or.inr ⟨k, hk', hrk, hsk⟩

/-- C6 (amended): `_is_unaltered(cur, org, v)` is true exactly when both
strict lookups raise KeyError or both succeed with equal values; and when
every declared Argument has an ENV mapping whose key is present in `env`
(with the ENV mapping injective on the declared keys), `GetUnaltered` and
`GetAltered` both succeed and partition the declared Arguments by
`_is_unaltered`.  Without that hypothesis the partition fails: an Argument
absent from both stores is *not* returned by `GetUnaltered` — the
uncaught KeyError of `resp[k] = envp[k]` aborts it (see the
counterexample). -/
theorem C6_partition (a : Arguments) (env org : Store)
    (hread : ∀ k ∈ a.keys, ∃ tk, dlookup (nsGet a.rename ENV) k = some tk ∧
      (storeGet env tk).isSome = true)
    (hinj : ∀ k1 ∈ a.keys, ∀ k2 ∈ a.keys,
      dlookup (nsGet a.rename ENV) k1 = dlookup (nsGet a.rename ENV) k2 → k1 = k2) :
    (∀ (rn ir : List (String × String)) (cur org2 : Store) (v : String),
      is_unaltered rn ir cur org2 v = true ↔
        ((proxyGetStrict rn ir cur v = none ∧ proxyGetStrict rn ir org2 v = none)
          ∨ ∃ w, proxyGetStrict rn ir cur v = some w ∧
              proxyGetStrict rn ir org2 v = some w))
    ∧ ∃ resU resA,
      GetUnaltered a env org = Except.ok resU ∧
      GetAltered a env org = Except.ok resA ∧
      ∀ k ∈ a.keys, ∀ tk, dlookup (nsGet a.rename ENV) k = some tk →
        (((dlookup resU tk).isSome = true) ↔
          is_unaltered (nsGet a.rename ENV) (nsGet a.iresubst ENV) env org k = true) ∧
        (((dlookup resA tk).isSome = true) ↔
          ¬ is_unaltered (nsGet a.rename ENV) (nsGet a.iresubst ENV) env org k = true) := by
  refine ⟨is_unaltered_iff, ?_⟩
  obtain ⟨resU, hU, hUiff⟩ :=
    collect_fold (nsGet a.rename ENV) (nsGet a.resubst ENV) (nsGet a.iresubst ENV) env
      (fun k => is_unaltered (nsGet a.rename ENV) (nsGet a.iresubst ENV) env org k)
      a.keys [] (fun k hk _ => hread k hk)
  obtain ⟨resA, hA, hAiff⟩ :=
    collect_fold (nsGet a.rename ENV) (nsGet a.resubst ENV) (nsGet a.iresubst ENV) env
      (fun k => !(is_unaltered (nsGet a.rename ENV) (nsGet a.iresubst ENV) env org k))
      a.keys [] (fun k hk _ => hread k hk)
  refine ⟨resU, resA, hU, hA, ?_⟩
  intro k hk tk htk
  constructor
  · rw [hUiff tk]
    constructor
    · rintro (h | ⟨k', hk', hrk', hsk'⟩)
      · simp [dlookup] at h
      · have : k' = k := hinj k' hk' k hk (by rw [hrk', htk])
        subst this
        exact hsk'
    · intro hsel
      exact Or.inr ⟨k, hk, htk, hsel⟩
  · rw [hAiff tk]
    constructor
    · rintro (h | ⟨k', hk', hrk', hsk'⟩)
      · simp [dlookup] at h
      · have : k' = k := hinj k' hk' k hk (by rw [hrk', htk])
        subst this
        simpa using hsk'
    · intro hsel
      exact Or.inr ⟨k, hk, htk, by simpa using hsel⟩

/-- A single Argument `foo ↦ ENV_FOO` with ENV default UNDEFINED, committed
into an empty environment: `add_to` skips the variable, so `foo` is absent
from the environment and from any original-values snapshot. -/
def c6Decls : ArgumentDecls :=
  (decls_setitem ⟨[], [[], [], []], [[], [], []], [[], [], []], [[], [], []], false⟩
    "foo" ⟨some ⟨"ENV_FOO", Value.undef⟩, none, none⟩).1

/-- The committed form of `c6Decls` with its (still empty) environment. -/
def c6Commit : (ArgumentDecls × CommitTargets) × Option Err :=
  decls_commit c6Decls ⟨some [], none, false, []⟩

/-- The resolved Arguments of `c6Decls`. -/
def c6Args : Arguments :=
  match mkArguments c6Commit.1.1 with
  | Except.ok a => a
  | Except.error _ => ⟨[], [], [], [], []⟩

/-- The environment the commit produced (empty: the UNDEFINED default is
suppressed). -/
def c6Env : Store := (c6Commit.1.2.env).getD []

/-- C6 counterexample: `foo` is absent from both stores, `_is_unaltered`
counts it as unaltered, yet `GetUnaltered` raises KeyError instead of
returning it — so "absence on both sides ... is returned by GetUnaltered"
is false on the code. -/
theorem C6_partition_cex :
    is_unaltered (nsGet c6Args.rename ENV) (nsGet c6Args.iresubst ENV)
      c6Env c6Env "foo" = true ∧
    GetUnaltered c6Args c6Env c6Env = Except.error Err.keyError := by
  refine ⟨by decide, by decide⟩

theorem C6_partition_witness :
    (∀ k ∈ c6Args.keys, ∃ tk, dlookup (nsGet c6Args.rename ENV) k = some tk ∧
      (storeGet [("ENV_FOO", Value.str "1")] tk).isSome = true) ∧
    (∀ k1 ∈ c6Args.keys, ∀ k2 ∈ c6Args.keys,
      dlookup (nsGet c6Args.rename ENV) k1 = dlookup (nsGet c6Args.rename ENV) k2 →
        k1 = k2) ∧
    ∃ resU resA,
      GetUnaltered c6Args [("ENV_FOO", Value.str "1")] [] = Except.ok resU ∧
      GetAltered c6Args [("ENV_FOO", Value.str "1")] [] = Except.ok resA ∧
      ∀ k ∈ c6Args.keys, ∀ tk, dlookup (nsGet c6Args.rename ENV) k = some tk →
        (((dlookup resU tk).isSome = true) ↔
          is_unaltered (nsGet c6Args.rename ENV) (nsGet c6Args.iresubst ENV)
            [("ENV_FOO", Value.str "1")] [] k = true) ∧
        (((dlookup resA tk).isSome = true) ↔
          ¬ is_unaltered (nsGet c6Args.rename ENV) (nsGet c6Args.iresubst ENV)
            [("ENV_FOO", Value.str "1")] [] k = true) :=
  ⟨by decide, by decide,
    (C6_partition c6Args [("ENV_FOO", Value.str "1")] [] (by decide) (by decide)).2⟩

/-! Claim C1: OPT values override VAR values in `UpdateEnvironment`. -/

theorem compose_mappings_keys (d1 d2 r : List (String × String))
    (h : compose_mappings d1 d2 = some r) :
    r.map Prod.fst = d1.map Prod.fst := by
  induction d1 generalizing r with
  | nil =>
    simp only [compose_mappings, Option.some.injEq] at h
    subst h
    rfl
  | cons p rest ih =>
    simp only [compose_mappings] at h
    cases h2 : dlookup d2 p.2 with
    | none => rw [h2] at h; cases h
    | some v2 =>
      rw [h2] at h
      cases hr : compose_mappings rest d2 with
      | none => rw [hr] at h; cases h
      | some r0 =>
        rw [hr] at h
        injection h with he
        subst he
        simp [ih r0 hr]

theorem opt_fold_preserves (rename resubst : List (String × String))
    (getOption : String → Value) (envKey : String) (v : Value) :
    ∀ (l2 : List (String × String)) (st : Store),
      (∀ p ∈ l2, ((dlookup rename p.1).getD p.1) ≠ envKey ∨
        ¬(getOption p.1 ≠ Value.vnone ∧ getOption p.1 ≠ Value.undef)) →
      dlookup st envKey = some v →
      dlookup (l2.foldl (optStep rename resubst getOption) st) envKey = some v := by
  intro l2
  induction l2 with
  | nil => intro st _ hv; exact hv
  | cons p l2 ih =>
    intro st hp hv
    rw [List.foldl_cons]
    refine ih _ (fun q hq => hp q (List.mem_cons_of_mem p hq)) ?_
    by_cases hg : getOption p.1 ≠ Value.vnone ∧ getOption p.1 ≠ Value.undef
    · have htgt : ((dlookup rename p.1).getD p.1) ≠ envKey := by
        rcases hp p (List.mem_cons_self p l2) with h | h
        · exact h
        · exact absurd hg h
      rw [show optStep rename resubst getOption st p =
          dictSet st ((dlookup rename p.1).getD p.1)
            (resubstValue (getOption p.1) resubst) from by
        simp [optStep, proxySetNonstrict, hg]]
      rw [dlookup_dictSet,
        if_neg (fun hc : envKey = ((dlookup rename p.1).getD p.1) => htgt hc.symm)]
      exact hv
    · rw [show optStep rename resubst getOption st p = st from by
        simp only [optStep, proxySetNonstrict]
        rw [if_neg hg]]
      exact hv

/-- C1: `UpdateEnvironment(env, variables, use_options := True)` runs
`update_env_from_vars` first and `update_env_from_opts` after it; whatever
value the variables pass wrote to the Argument's construction variable, the
OPT loop overwrites it, so the final value is the command-line option value
(written through the OPT proxy; `hfix` states that the value is unaffected
by the placeholder rewrite, e.g. any placeholder-free value).  The
hypotheses say: the OPT proxy composition succeeds (`hcomp`), the variables
pass succeeds (`hvars`), the Argument's `opt_key` is registered and maps to
`envKey` (`hmem`, `hlook`), opt keys are unique and no other opt key writes
to `envKey` (`hnodup`, `hothers`), and `GetOption` supplies a real value
(`hget`, `hv1`, `hv2`). -/
theorem C1_opt_overrides_var (a : Arguments) (env env1 : Store) (vs : Variables)
    (args? : Option (List (String × Value))) (getOption : String → Value)
    (ro : List (String × String)) (optKey argName envKey : String) (v : Value)
    (hcomp : compose_mappings (nsGet a.irename OPT) (nsGet a.rename ENV) = some ro)
    (hvars : update_env_from_vars a env vs args? = Except.ok env1)
    (hmem : (optKey, argName) ∈ nsGet a.irename OPT)
    (hnodup : ((nsGet a.irename OPT).map Prod.fst).Nodup)
    (hlook : dlookup ro optKey = some envKey)
    (hothers : ∀ p ∈ nsGet a.irename OPT, p.1 ≠ optKey →
      dlookup ro p.1 ≠ some envKey)
    (hget : getOption optKey = v)
    (hv1 : v ≠ Value.vnone) (hv2 : v ≠ Value.undef)
    (hfix : resubstValue v (build_resubst_dict ro) = v) :
    ∃ env2, UpdateEnvironment a env (some vs) true args? getOption = Except.ok env2 ∧
      storeGet env2 envKey = some v := by
  obtain ⟨l1, l2, hsplit⟩ := List.append_of_mem hmem
  have hkeys := compose_mappings_keys (nsGet a.irename OPT) (nsGet a.rename ENV) ro hcomp
  have hopt : update_env_from_opts a getOption env1 =
      Except.ok ((nsGet a.irename OPT).foldl
        (optStep ro (build_resubst_dict ro) getOption) env1) := by
    unfold update_env_from_opts
    rw [hcomp]
  refine ⟨(nsGet a.irename OPT).foldl (optStep ro (build_resubst_dict ro) getOption) env1,
    ?_, ?_⟩
  · simp only [UpdateEnvironment, hvars, if_true]
    exact hopt
  · rw [hsplit, List.foldl_append, List.foldl_cons]
    have hnodup2 : optKey ∉ l2.map Prod.fst := by
      rw [hsplit] at hnodup
      simp only [List.map_append, List.map_cons] at hnodup
      have := (List.Nodup.of_append_right hnodup)
      exact (List.nodup_cons.mp this).1
    have hstep : optStep ro (build_resubst_dict ro) getOption
        (l1.foldl (optStep ro (build_resubst_dict ro) getOption) env1)
        (optKey, argName) =
        dictSet (l1.foldl (optStep ro (build_resubst_dict ro) getOption) env1)
          envKey v := by
      simp only [optStep, proxySetNonstrict, hget]
      rw [if_pos ⟨hv1, hv2⟩, hlook]
      simp [hfix]
    rw [hstep]
    refine opt_fold_preserves ro (build_resubst_dict ro) getOption envKey v l2 _ ?_ ?_
    · intro p hpl2
      left
      have hpmem : p ∈ nsGet a.irename OPT := by
        rw [hsplit]
        exact List.mem_append.mpr (Or.inr (List.mem_cons_of_mem _ hpl2))
      have hpne : p.1 ≠ optKey := by
        intro hc
        exact hnodup2 (hc ▸ List.mem_map_of_mem Prod.fst hpl2)
      have hpkey : p.1 ∈ ro.map Prod.fst := by
        rw [hkeys, hsplit]
        simp only [List.map_append, List.map_cons]
        exact List.mem_append.mpr (Or.inr (List.mem_cons_of_mem _
          (List.mem_map_of_mem Prod.fst hpl2)))
      cases hrp : dlookup ro p.1 with
      | none => exact absurd ((dlookup_eq_none_iff ro p.1).mp hrp) (by simp [hpkey])
      | some w =>
        have := hothers p hpmem hpne
        rw [hrp] at this
        simp only [Option.getD_some]
        intro hc
        exact this (by rw [hc])
    · rw [dlookup_dictSet]
      simp

/-- One Argument `foo` declared in all three namespaces
(`ENV_FOO`/`VAR_FOO`/`opt_foo`). -/
def c1Decls : ArgumentDecls :=
  (decls_setitem ⟨[], [[], [], []], [[], [], []], [[], [], []], [[], [], []], false⟩
    "foo" ⟨some ⟨"ENV_FOO", Value.vnone⟩, some ⟨"VAR_FOO", none, none, none, none⟩,
      some ⟨["--foo"], "opt_foo", none, []⟩⟩).1

/-- `c1Decls` committed into an empty environment, a fresh Variables object
and the option registry. -/
def c1Commit : (ArgumentDecls × CommitTargets) × Option Err :=
  decls_commit c1Decls ⟨some [], some ⟨[], [], []⟩, true, []⟩

/-- The resolved Arguments of `c1Decls`. -/
def c1Args : Arguments :=
  match mkArguments c1Commit.1.1 with
  | Except.ok a => a
  | Except.error _ => ⟨[], [], [], [], []⟩

/-- The environment populated by the commit (`ENV_FOO = None`). -/
def c1Env : Store := (c1Commit.1.2.env).getD []

/-- The commit-populated Variables object with the command-line input
`VAR_FOO=v1`. -/
def c1Vars : Variables :=
  match c1Commit.1.2.vars with
  | some vs => { vs with args := [("VAR_FOO", Value.str "v1")] }
  | none => ⟨[], [], []⟩

/-- The `GetOption` oracle: `--foo=v2` was given on the command line. -/
def c1GetOption : String → Value :=
  fun k => if k = "opt_foo" then Value.str "v2" else Value.vnone

theorem C1_opt_overrides_var_witness :
    (update_env_from_vars c1Args c1Env c1Vars none =
      Except.ok [("ENV_FOO", Value.str "v1")]) ∧
    (storeGet [("ENV_FOO", Value.str "v1")] "ENV_FOO" = some (Value.str "v1")) ∧
    ∃ env2, UpdateEnvironment c1Args c1Env (some c1Vars) true none c1GetOption =
        Except.ok env2 ∧
      storeGet env2 "ENV_FOO" = some (Value.str "v2") :=
  ⟨by decide, by decide,
    C1_opt_overrides_var c1Args c1Env [("ENV_FOO", Value.str "v1")] c1Vars none
      c1GetOption [("opt_foo", "ENV_FOO")] "opt_foo" "foo" "ENV_FOO" (Value.str "v2")
      (by decide) (by decide) (by decide) (by decide) (by decide) (by decide)
      (by decide) (by decide) (by decide) (by decide)⟩

/-! Claim C10: the table and key-list accessors return defensive copies. -/

theorem heap_copy_frame {α : Type} [Inhabited α] (h : Heap α) (x newv : α) (r : Nat)
    (hr : r < h.cells.length) :
    heapRead (heapWrite (heapAlloc h x).1 (heapAlloc h x).2 newv) r = heapRead h r := by
  have h1 := heapRead_write_other (heapAlloc h x).1 newv (heapAlloc h x).2 r
    (by simp only [heapAlloc]; exact Nat.ne_of_lt hr)
  rw [h1]
  exact heapRead_alloc_old h x r hr

/-- C10: each table getter allocates a fresh dictionary holding the current
table contents (`.copy()`), and `get_keys` allocates a fresh list
(`[:]`): mutating the returned reference leaves every internal table
reference — and the key list — reading exactly what it read before; the
resubst/iresubst getters behave so after commit (before commit they raise
NotCommittedError). -/
theorem C10_defensive_copies
    (h : Heap (List (String × String))) (d : ArgumentDeclsRefs) (ns : Nat)
    (hvalid : ∀ r ∈ d.allRefs, r < h.cells.length) :
    (heapRead (get_rename_dict_ref h d ns).1 (get_rename_dict_ref h d ns).2 =
        heapRead h (d.renameRefs.getD ns 0))
    ∧ (∀ newDict, ∀ r ∈ d.allRefs,
        heapRead (heapWrite (get_rename_dict_ref h d ns).1
          (get_rename_dict_ref h d ns).2 newDict) r = heapRead h r)
    ∧ (heapRead (get_irename_dict_ref h d ns).1 (get_irename_dict_ref h d ns).2 =
        heapRead h (d.irenameRefs.getD ns 0))
    ∧ (∀ newDict, ∀ r ∈ d.allRefs,
        heapRead (heapWrite (get_irename_dict_ref h d ns).1
          (get_irename_dict_ref h d ns).2 newDict) r = heapRead h r)
    ∧ (d.committed = true →
        get_resubst_dict_ref h d ns =
          some (heapAlloc h (heapRead h (d.resubstRefs.getD ns 0))) ∧
        get_iresubst_dict_ref h d ns =
          some (heapAlloc h (heapRead h (d.iresubstRefs.getD ns 0))) ∧
        (∀ newDict, ∀ r ∈ d.allRefs,
          heapRead (heapWrite (heapAlloc h (heapRead h (d.resubstRefs.getD ns 0))).1
            (heapAlloc h (heapRead h (d.resubstRefs.getD ns 0))).2 newDict) r =
            heapRead h r) ∧
        (∀ newDict, ∀ r ∈ d.allRefs,
          heapRead (heapWrite (heapAlloc h (heapRead h (d.iresubstRefs.getD ns 0))).1
            (heapAlloc h (heapRead h (d.iresubstRefs.getD ns 0))).2 newDict) r =
            heapRead h r))
    ∧ (∀ (hk : Heap (List String)) (ar : ArgumentsRefs),
        ar.keysRef < hk.cells.length →
        heapRead (get_keys_ref hk ar).1 (get_keys_ref hk ar).2 =
          heapRead hk ar.keysRef ∧
        ∀ newKeys, heapRead (heapWrite (get_keys_ref hk ar).1 (get_keys_ref hk ar).2
          newKeys) ar.keysRef = heapRead hk ar.keysRef) := by
  refine ⟨?_, ?_, ?_, ?_, ?_, ?_⟩
  · exact heapRead_alloc_new h _
  · intro newDict r hr
    exact heap_copy_frame h _ newDict r (hvalid r hr)
  · exact heapRead_alloc_new h _
  · intro newDict r hr
    exact heap_copy_frame h _ newDict r (hvalid r hr)
  · intro hcomm
    refine ⟨by simp [get_resubst_dict_ref, hcomm], by simp [get_iresubst_dict_ref, hcomm],
      ?_, ?_⟩
    · intro newDict r hr
      exact heap_copy_frame h _ newDict r (hvalid r hr)
    · intro newDict r hr
      exact heap_copy_frame h _ newDict r (hvalid r hr)
  · intro hk ar hvr
    exact ⟨heapRead_alloc_new hk _,
      fun newKeys => heap_copy_frame hk _ newKeys ar.keysRef hvr⟩

/-- A concrete four-cell heap: rename/irename/resubst/iresubst tables of a
one-Argument set in cells 0–3. -/
def c10Heap : Heap (List (String × String)) :=
  ⟨[[("foo", "ENV_FOO")], [("ENV_FOO", "foo")],
    [("foo", "${ENV_FOO}")], [("ENV_FOO", "${foo}")]]⟩

/-- The reference-level declaration set pointing at `c10Heap`'s cells. -/
def c10Refs : ArgumentDeclsRefs := ⟨[0, 0, 0], [1, 1, 1], [2, 2, 2], [3, 3, 3], true⟩

theorem C10_defensive_copies_witness :
    (∀ r ∈ c10Refs.allRefs, r < c10Heap.cells.length) ∧
    (heapRead (get_rename_dict_ref c10Heap c10Refs ENV).1
        (get_rename_dict_ref c10Heap c10Refs ENV).2 =
      heapRead c10Heap (c10Refs.renameRefs.getD ENV 0)) ∧
    (∀ newDict, ∀ r ∈ c10Refs.allRefs,
      heapRead (heapWrite (get_rename_dict_ref c10Heap c10Refs ENV).1
        (get_rename_dict_ref c10Heap c10Refs ENV).2 newDict) r =
          heapRead c10Heap r) :=
  ⟨by decide,
    (C10_defensive_copies c10Heap c10Refs ENV (by decide)).1,
    (C10_defensive_copies c10Heap c10Refs ENV (by decide)).2.1⟩

end SCA
